import Mathlib

/-!
A verification development for the PyAnvilEditor repository: a shallow
embedding in Lean of the NBT tag codec (pyanvil/nbt.py), the palette
bit-packing codec and chunk-section (de)serialization
(pyanvil/components.py), the component dirty-flag propagation, and the
region save algorithm, together with theorems checking the repository's
specification against the code.

Modelling conventions:
- Python byte strings are embedded as 'List Nat' with every entry below 256.
- Python ints are embedded as 'Int' (or 'Nat' where the source value is
  provably non-negative); two's-complement (de)serialisation is explicit.
- The byte-stream helpers (pyanvil/stream.py is imported by the sources but
  its file is not part of them) are modelled from the spec, section 4.1:
  an input stream is a byte list consumed from the front, a read past the
  end fails, an output stream is an appended byte list.
- IEEE-754 float and double payloads are embedded by their raw big-endian
  bit patterns (a 'Nat' below 2^32 or 2^64): struct.pack and struct.unpack
  move exactly those bytes.
- Python dicts are embedded as association lists or as functions into
  'Option', as noted at each definition.
- Fallible operations return 'Option'; 'none' models a raised exception
  (or, for Region.save, the sys.exit call), as noted at each definition.
-/

namespace PyAnvil

/-! ## Byte-level primitives (big-endian integers, stream reads) -/

/-- Modelled from the spec: read n bytes from the front of the stream
(InputStream.read in pyanvil/stream.py, absent from the sources); a short
read fails with EndOfStream, embedded as 'none'. -/
def readBytes (n : Nat) (bs : List Nat) : Option (List Nat × List Nat) :=
  if n ≤ bs.length then some (bs.take n, bs.drop n) else none

/-- Big-endian base-256 value of a byte list, as computed by
int.from_bytes(-, byteorder='big', signed=False). -/
def bytesToNatBE (l : List Nat) : Nat :=
  l.foldl (fun a b => a * 256 + b) 0

/-- The k big-endian base-256 digits of v, as written by
v.to_bytes(k, byteorder='big', signed=False) (low digits last). -/
def natToBytesBE : Nat → Nat → List Nat
  | 0, _ => []
  | k + 1, v => natToBytesBE k (v / 256) ++ [v % 256]

/-- Two's-complement reinterpretation of a k-byte unsigned value, as
computed by int.from_bytes(-, byteorder='big', signed=True). -/
def signedOfNat (k : Nat) (u : Nat) : Int :=
  if u < 2 ^ (8 * k - 1) then (u : Int) else (u : Int) - 2 ^ (8 * k)

/-- The k-byte two's-complement encoding of v, as written by
v.to_bytes(k, byteorder='big', signed=True). -/
def intToBytesBE (k : Nat) (v : Int) : List Nat :=
  natToBytesBE k (v % ((2 : Int) ^ (8 * k))).toNat

/-- Read a k-byte big-endian unsigned integer from the stream. -/
def readUIntBE (k : Nat) (bs : List Nat) : Option (Nat × List Nat) :=
  (readBytes k bs).map (fun p => (bytesToNatBE p.1, p.2))

/-- Read a k-byte big-endian signed integer from the stream. -/
def readSIntBE (k : Nat) (bs : List Nat) : Option (Int × List Nat) :=
  (readBytes k bs).map (fun p => (signedOfNat k (bytesToNatBE p.1), p.2))

/-! ## The tag codec (pyanvil/nbt.py)

The twelve tag kinds. Every tag object carries a tag_name (a byte list of
character codes; well-formedness restricts them to ASCII so that the
utf-8 decoding done by the parser is the identity on them). Numeric
payloads of the four integer kinds are the Python int tag_value; float and
double payloads are embedded by their IEEE-754 bit patterns. Children of
typed arrays are tags (the source stores BaseDataTag objects there);
children of compounds are held as an ordered list, the embedding of the
insertion-ordered Python dict, whose keys are the children's names. -/

inductive Tag where
  | byte (name : List Nat) (v : Int)
  | short (name : List Nat) (v : Int)
  | int (name : List Nat) (v : Int)
  | long (name : List Nat) (v : Int)
  | float (name : List Nat) (bits : Nat)
  | double (name : List Nat) (bits : Nat)
  | string (name : List Nat) (v : List Nat)
  | byteArray (name : List Nat) (children : List Tag)
  | intArray (name : List Nat) (children : List Tag)
  | longArray (name : List Nat) (children : List Tag)
  | list (name : List Nat) (subTypeId : Nat) (children : List Tag)
  | compound (name : List Nat) (children : List Tag)

/-- The clazz_id of each tag class (the TagType enum). -/
def tagId : Tag → Nat
  | .byte _ _ => 1
  | .short _ _ => 2
  | .int _ _ => 3
  | .long _ _ => 4
  | .float _ _ => 5
  | .double _ _ => 6
  | .byteArray _ _ => 7
  | .string _ _ => 8
  | .list _ _ _ => 9
  | .compound _ _ => 10
  | .intArray _ _ => 11
  | .longArray _ _ => 12

/-- The tag_name attribute. -/
def nameOf : Tag → List Nat
  | .byte nm _ => nm
  | .short nm _ => nm
  | .int nm _ => nm
  | .long nm _ => nm
  | .float nm _ => nm
  | .double nm _ => nm
  | .string nm _ => nm
  | .byteArray nm _ => nm
  | .intArray nm _ => nm
  | .longArray nm _ => nm
  | .list nm _ _ => nm
  | .compound nm _ => nm

/-- Replace the tag_name, as a parser does when it is handed the name read
from the stream. -/
def withName (nm : List Nat) : Tag → Tag
  | .byte _ v => .byte nm v
  | .short _ v => .short nm v
  | .int _ v => .int nm v
  | .long _ v => .long nm v
  | .float _ b => .float nm b
  | .double _ b => .double nm b
  | .string _ v => .string nm v
  | .byteArray _ cs => .byteArray nm cs
  | .intArray _ cs => .intArray nm cs
  | .longArray _ cs => .longArray nm cs
  | .list _ sub cs => .list nm sub cs
  | .compound _ cs => .compound nm cs

/-- The character codes of the default tag name 'None'. -/
def noneName : List Nat := [78, 111, 110, 101]

/-- NBT.write_string: a two-byte big-endian length followed by one byte
per character (ord of each character; the identity on ASCII byte lists). -/
def writeString (s : List Nat) : List Nat :=
  natToBytesBE 2 s.length ++ s

/- Serialisation of the payload of each tag kind, dispatching on the tag
class exactly as the serialize methods with include_name=False do:
struct.pack for the six data kinds, length-prefixed bytes for strings,
an i32 count followed by unnamed element payloads for typed arrays, a
subtype byte, i32 count and unnamed element payloads for lists, and named
children terminated by a zero byte for compounds. Array and list counts
are written by len.to_bytes(4, signed=True), identical to the unsigned
encoding for the well-formed lengths below 2^31. -/
mutual

def serPayload : Tag → List Nat
  | .byte _ v => intToBytesBE 1 v
  | .short _ v => intToBytesBE 2 v
  | .int _ v => intToBytesBE 4 v
  | .long _ v => intToBytesBE 8 v
  | .float _ bits => natToBytesBE 4 bits
  | .double _ bits => natToBytesBE 8 bits
  | .string _ v => natToBytesBE 2 v.length ++ v
  | .byteArray _ cs => natToBytesBE 4 cs.length ++ serPayloadList cs
  | .intArray _ cs => natToBytesBE 4 cs.length ++ serPayloadList cs
  | .longArray _ cs => natToBytesBE 4 cs.length ++ serPayloadList cs
  | .list _ sub cs => natToBytesBE 1 sub ++ natToBytesBE 4 cs.length ++ serPayloadList cs
  | .compound _ cs => serNamedList cs ++ [0]

def serPayloadList : List Tag → List Nat
  | [] => []
  | t :: ts => serPayload t ++ serPayloadList ts

def serNamedList : List Tag → List Nat
  | [] => []
  | t :: ts => (tagId t :: (writeString (nameOf t) ++ serPayload t)) ++ serNamedList ts

end

/-- Serialisation of a named tag (serialize with include_name=True): the
clazz_id byte, the name via NBT.write_string, then the payload. -/
def serNamed (t : Tag) : List Nat :=
  tagId t :: (writeString (nameOf t) ++ serPayload t)

/- Parser fuel measure: a bound on the recursion depth needed to parse a
tag's serialisation back. Flat tags need none; each list or compound
element costs its own size plus one. -/
mutual

def sizeT : Tag → Nat
  | .list _ _ cs => 1 + sizeTList cs
  | .compound _ cs => 1 + sizeTList cs
  | _ => 1

def sizeTList : List Tag → Nat
  | [] => 0
  | t :: ts => (sizeT t + 1) + sizeTList ts

end

/-- Well-formedness of a tag name: within the u16 length prefix written by
NBT.write_string, and ASCII so that utf-8 decoding is the identity. -/
def nameWF (nm : List Nat) : Bool :=
  decide (nm.length < 65536) && nm.all (fun c => c < 128)

/-- An element of a typed array of element kind id: a data tag of that
kind, named 'None' (the name elements receive when parsed, and which is
never serialised), with its value in the range struct.pack accepts. -/
def isDataElem (id : Nat) : Tag → Bool
  | .byte nm v => decide (id = 1) && decide (nm = noneName)
      && decide (-128 ≤ v ∧ v < 128)
  | .int nm v => decide (id = 3) && decide (nm = noneName)
      && decide (-2147483648 ≤ v ∧ v < 2147483648)
  | .long nm v => decide (id = 4) && decide (nm = noneName)
      && decide (-9223372036854775808 ≤ v ∧ v < 9223372036854775808)
  | _ => false

/- Well-formedness of a tag tree: the serialisable domain of the codec.
Numeric values lie in the range their struct format accepts, names and
strings are ASCII and fit their u16 length prefix, array and list counts
fit the i32 count prefix, typed-array children are data tags of the
element kind, list children all have the declared subtype and carry the
unserialised default name, and compound children bear pairwise distinct
names (they are the keys of the children dict). -/
mutual

def isWF : Tag → Bool
  | .byte nm v => nameWF nm && decide (-128 ≤ v ∧ v < 128)
  | .short nm v => nameWF nm && decide (-32768 ≤ v ∧ v < 32768)
  | .int nm v => nameWF nm && decide (-2147483648 ≤ v ∧ v < 2147483648)
  | .long nm v => nameWF nm && decide (-9223372036854775808 ≤ v ∧ v < 9223372036854775808)
  | .float nm bits => nameWF nm && decide (bits < 4294967296)
  | .double nm bits => nameWF nm && decide (bits < 18446744073709551616)
  | .string nm v => nameWF nm && decide (v.length < 65536) && v.all (fun c => c < 128)
  | .byteArray nm cs => nameWF nm && decide (cs.length < 2147483648) && cs.all (isDataElem 1)
  | .intArray nm cs => nameWF nm && decide (cs.length < 2147483648) && cs.all (isDataElem 3)
  | .longArray nm cs => nameWF nm && decide (cs.length < 2147483648) && cs.all (isDataElem 4)
  | .list nm sub cs => nameWF nm && decide (sub < 256) && decide (cs.length < 2147483648)
      && isWFElems sub cs
  | .compound nm cs => nameWF nm && decide ((cs.map nameOf).Nodup) && isWFList cs

def isWFElems : Nat → List Tag → Bool
  | _, [] => true
  | sub, t :: ts => decide (tagId t = sub) && decide (nameOf t = noneName)
      && isWF t && isWFElems sub ts

def isWFList : List Tag → Bool
  | [] => true
  | t :: ts => isWF t && isWFList ts

end

/-- Parsing of the payload of one of the six data kinds
(BaseDataTag.parse: struct.unpack of clazz_width bytes). Unknown ids fail,
the embedding of the KeyError raised by the NBT._parsers lookup. -/
def parseDataPayload (id : Nat) (nm : List Nat) (bs : List Nat) : Option (Tag × List Nat) :=
  if id = 1 then (readSIntBE 1 bs).map (fun p => (.byte nm p.1, p.2))
  else if id = 2 then (readSIntBE 2 bs).map (fun p => (.short nm p.1, p.2))
  else if id = 3 then (readSIntBE 4 bs).map (fun p => (.int nm p.1, p.2))
  else if id = 4 then (readSIntBE 8 bs).map (fun p => (.long nm p.1, p.2))
  else if id = 5 then (readUIntBE 4 bs).map (fun p => (.float nm p.1, p.2))
  else if id = 6 then (readUIntBE 8 bs).map (fun p => (.double nm p.1, p.2))
  else none

/-- The element loop of BaseArrayTag.parse: count payloads of the data
element kind, each parsed with the name 'None'. -/
def readDataElems (id : Nat) : Nat → List Nat → Option (List Tag × List Nat)
  | 0, bs => some ([], bs)
  | c + 1, bs =>
    (parseDataPayload id noneName bs).bind (fun p =>
      (readDataElems id c p.2).bind (fun q => some (p.1 :: q.1, q.2)))

/-- The named-tag header read by NBT.parse_nbt: a tag id byte, a u16 name
length, and the name bytes. -/
def readNamedHeader (bs : List Nat) : Option (Nat × List Nat × List Nat) :=
  (readUIntBE 1 bs).bind (fun p =>
    (readUIntBE 2 p.2).bind (fun q =>
      (readBytes q.1 q.2).bind (fun r => some (p.1, r.1, r.2))))

/-- The payload parser of one tag id, dispatching on the id as the
NBT._parsers registry does: string, typed arrays, lists (a subtype byte,
an i32 count, then count unnamed payloads of the subtype, delegated to
recListElems), compounds (named children until an END byte, delegated to
recCompoundItems), and the six data kinds; unknown ids fail (KeyError).
A negative list or array count is parsed as an empty loop (the range of a
negative int is empty), hence Int.toNat. The two rec arguments are the
recursive parsers one fuel level down, tied by parseFns below. -/
def parsePayloadCore
    (recListElems : Nat → Nat → List Nat → Option (List Tag × List Nat))
    (recCompoundItems : List Nat → Option (List Tag × List Nat))
    (id : Nat) (nm : List Nat) (bs : List Nat) : Option (Tag × List Nat) :=
  if id = 8 then
    (readUIntBE 2 bs).bind (fun p =>
      (readBytes p.1 p.2).bind (fun q => some (.string nm q.1, q.2)))
  else if id = 7 then
    (readSIntBE 4 bs).bind (fun p =>
      (readDataElems 1 p.1.toNat p.2).bind (fun q => some (.byteArray nm q.1, q.2)))
  else if id = 11 then
    (readSIntBE 4 bs).bind (fun p =>
      (readDataElems 3 p.1.toNat p.2).bind (fun q => some (.intArray nm q.1, q.2)))
  else if id = 12 then
    (readSIntBE 4 bs).bind (fun p =>
      (readDataElems 4 p.1.toNat p.2).bind (fun q => some (.longArray nm q.1, q.2)))
  else if id = 9 then
    (readUIntBE 1 bs).bind (fun p =>
      (readSIntBE 4 p.2).bind (fun q =>
        (recListElems p.1 q.1.toNat q.2).bind (fun r =>
          some (.list nm p.1 r.1, r.2))))
  else if id = 10 then
    (recCompoundItems bs).bind (fun p => some (.compound nm p.1, p.2))
  else parseDataPayload id nm bs

/-- The element loop of ListTag.parse: count payloads of the declared
subtype, each parsed with the name 'None' by the payload parser one fuel
level down. -/
def parseListElemsCore
    (recPayload : Nat → List Nat → List Nat → Option (Tag × List Nat))
    (recSelf : Nat → Nat → List Nat → Option (List Tag × List Nat)) :
    Nat → Nat → List Nat → Option (List Tag × List Nat)
  | _, 0, bs => some ([], bs)
  | sub, c + 1, bs =>
    (recPayload sub noneName bs).bind (fun p =>
      (recSelf sub c p.2).bind (fun q => some (p.1 :: q.1, q.2)))

/-- The child loop of CompoundTag.parse: peek a byte; an END byte (zero)
is consumed and ends the compound, any other byte is re-read as the start
of a named child through the inlined body of NBT.parse_nbt. Peeking an
empty stream fails: EndOfStream, embedded as 'none'. -/
def parseCompoundItemsCore
    (recPayload : Nat → List Nat → List Nat → Option (Tag × List Nat))
    (recSelf : List Nat → Option (List Tag × List Nat)) :
    List Nat → Option (List Tag × List Nat)
  | [] => none
  | b :: rest =>
    if b = 0 then some ([], rest)
    else
      (readNamedHeader (b :: rest)).bind (fun p =>
        (recPayload p.1 p.2.1 p.2.2).bind (fun q =>
          (recSelf q.2).bind (fun r => some (q.1 :: r.1, r.2))))

/-- The three mutually recursive parsing loops, tied together level by
level on a fuel argument that bounds the recursion depth. The fuel is an
artifact of the embedding: sizeT t fuel always suffices to parse back the
serialisation of t, and exhausted fuel yields 'none'. -/
def parseFns : Nat →
    ((Nat → List Nat → List Nat → Option (Tag × List Nat))
      × (Nat → Nat → List Nat → Option (List Tag × List Nat))
      × (List Nat → Option (List Tag × List Nat)))
  | 0 =>
    (parsePayloadCore (fun _ _ _ => none) (fun _ => none),
     parseListElemsCore (fun _ _ _ => none) (fun _ _ _ => none),
     parseCompoundItemsCore (fun _ _ _ => none) (fun _ => none))
  | fuel + 1 =>
    (parsePayloadCore (parseFns fuel).2.1 (parseFns fuel).2.2,
     parseListElemsCore (parseFns fuel).1 (parseFns fuel).2.1,
     parseCompoundItemsCore (parseFns fuel).1 (parseFns fuel).2.2)

/-- The payload parser at a given fuel level. -/
def parsePayload (fuel : Nat) : Nat → List Nat → List Nat → Option (Tag × List Nat) :=
  (parseFns fuel).1

/-- The list-element loop at a given fuel level. -/
def parseListElems (fuel : Nat) : Nat → Nat → List Nat → Option (List Tag × List Nat) :=
  (parseFns fuel).2.1

/-- The compound-child loop at a given fuel level. -/
def parseCompoundItems (fuel : Nat) : List Nat → Option (List Tag × List Nat) :=
  (parseFns fuel).2.2

/-- NBT.parse_nbt: read the named header, then dispatch the payload to the
parser registered for the tag id. -/
def parseNamed (fuel : Nat) (bs : List Nat) : Option (Tag × List Nat) :=
  (readNamedHeader bs).bind (fun p => parsePayload fuel p.1 p.2.1 p.2.2)


/-! ## Tag equality (the eq methods of pyanvil/nbt.py)

Python compares the tag_value attributes with the numeric equality of
Python ints and floats: exact value equality across int and float
operands, infinities equal to same-signed infinities, and NaN unequal to
everything including itself. PyNum is that value domain; float and double
bit patterns are decoded into it. -/

inductive PyNum where
  | fin (q : Rat)
  | inf (pos : Bool)
  | nan

/-- Decode an IEEE-754 bit pattern (expBits exponent bits, mantBits
mantissa bits, the given bias) into the Python numeric value it denotes. -/
def decodeIEEE (expBits mantBits bias bits : Nat) : PyNum :=
  let mant := bits % 2 ^ mantBits
  let expo := (bits >>> mantBits) % 2 ^ expBits
  let sign := (bits >>> (expBits + mantBits)) % 2 = 1
  if expo = 2 ^ expBits - 1 then
    if mant = 0 then .inf (decide ¬sign) else .nan
  else
    let mag : Rat :=
      if expo = 0 then (mant : Rat) * (2 : Rat) ^ ((1 : Int) - bias - mantBits)
      else ((2 ^ mantBits + mant : Nat) : Rat) * (2 : Rat) ^ ((expo : Int) - bias - mantBits)
    .fin (if sign then -mag else mag)

/-- The numeric value denoted by a FloatTag bit pattern. -/
def floatVal (bits : Nat) : PyNum := decodeIEEE 8 23 127 bits

/-- The numeric value denoted by a DoubleTag bit pattern. -/
def doubleVal (bits : Nat) : PyNum := decodeIEEE 11 52 1023 bits

/-- The tag_value of a BaseDataTag as a Python number; 'none' for the six
non-data kinds (the isinstance check in BaseDataTag eq). -/
def dataVal : Tag → Option PyNum
  | .byte _ v => some (.fin (v : Rat))
  | .short _ v => some (.fin (v : Rat))
  | .int _ v => some (.fin (v : Rat))
  | .long _ v => some (.fin (v : Rat))
  | .float _ bits => some (floatVal bits)
  | .double _ bits => some (doubleVal bits)
  | _ => none

/-- Python numeric equality on tag values: exact equality of finite
values, equality of same-signed infinities, NaN unequal to everything. -/
def pyNumEq : PyNum → PyNum → Bool
  | .fin a, .fin b => a == b
  | .inf a, .inf b => a == b
  | _, _ => false

/-- The name and value of a StringTag (the isinstance check in the
StringTag eq). -/
def stringOf : Tag → Option (List Nat × List Nat)
  | .string nm v => some (nm, v)
  | _ => none

/-- The name and children of a BaseArrayTag of any of the three array
kinds (the isinstance check in BaseArrayTag eq spans all of them). -/
def arrayChildrenOf : Tag → Option (List Nat × List Tag)
  | .byteArray nm cs => some (nm, cs)
  | .intArray nm cs => some (nm, cs)
  | .longArray nm cs => some (nm, cs)
  | _ => none

/-- The name and children of a ListTag (sub_type_id is not compared by
the ListTag eq and is dropped here). -/
def listChildrenOf : Tag → Option (List Nat × List Tag)
  | .list nm _ cs => some (nm, cs)
  | _ => none

/-- The name and children of a CompoundTag. The CompoundTag eq method has
no isinstance check and duck-types on the children attribute of the other
operand; comparisons of a compound against a non-compound tag, which no
claim exercises, are embedded as false. -/
def compoundChildrenOf : Tag → Option (List Nat × List Tag)
  | .compound nm cs => some (nm, cs)
  | _ => none

/- The eq methods of the tag classes: BaseDataTag compares the tag_name
and the numeric tag_value of any two data tags regardless of their kind;
StringTag compares name and string; BaseArrayTag compares name, length
and children pairwise across any two array kinds; ListTag compares name,
length and (unless empty) children pairwise; CompoundTag compares name,
size, and for each child name the other compound's child of that name. -/
mutual

def tagEq : Tag → Tag → Bool
  | .byte nm v, other =>
    (dataVal other).elim false (fun nb =>
      decide (nm = nameOf other) && pyNumEq (.fin (v : Rat)) nb)
  | .short nm v, other =>
    (dataVal other).elim false (fun nb =>
      decide (nm = nameOf other) && pyNumEq (.fin (v : Rat)) nb)
  | .int nm v, other =>
    (dataVal other).elim false (fun nb =>
      decide (nm = nameOf other) && pyNumEq (.fin (v : Rat)) nb)
  | .long nm v, other =>
    (dataVal other).elim false (fun nb =>
      decide (nm = nameOf other) && pyNumEq (.fin (v : Rat)) nb)
  | .float nm bits, other =>
    (dataVal other).elim false (fun nb =>
      decide (nm = nameOf other) && pyNumEq (floatVal bits) nb)
  | .double nm bits, other =>
    (dataVal other).elim false (fun nb =>
      decide (nm = nameOf other) && pyNumEq (doubleVal bits) nb)
  | .string nm v, other =>
    (stringOf other).elim false (fun p => decide (nm = p.1) && decide (v = p.2))
  | .byteArray nm cs, other =>
    (arrayChildrenOf other).elim false (fun p =>
      decide (nm = p.1) && decide (cs.length = p.2.length) && tagEqPairwise cs p.2)
  | .intArray nm cs, other =>
    (arrayChildrenOf other).elim false (fun p =>
      decide (nm = p.1) && decide (cs.length = p.2.length) && tagEqPairwise cs p.2)
  | .longArray nm cs, other =>
    (arrayChildrenOf other).elim false (fun p =>
      decide (nm = p.1) && decide (cs.length = p.2.length) && tagEqPairwise cs p.2)
  | .list nm _ cs, other =>
    (listChildrenOf other).elim false (fun p =>
      decide (nm = p.1) && decide (cs.length = p.2.length)
        && (decide (cs.length = 0) || tagEqPairwise cs p.2))
  | .compound nm cs, other =>
    (compoundChildrenOf other).elim false (fun p =>
      decide (nm = p.1) && decide (cs.length = p.2.length) && tagEqByName cs p.2)

def tagEqPairwise : List Tag → List Tag → Bool
  | [], [] => true
  | a :: as2, b :: bs2 => tagEq a b && tagEqPairwise as2 bs2
  | _, _ => false

def tagEqByName : List Tag → List Tag → Bool
  | [], _ => true
  | c :: cs, ds =>
    ((ds.find? (fun d => nameOf d == nameOf c)).elim false (fun d => tagEq c d))
      && tagEqByName cs ds

end

/-- The four fixed-width integer tag kinds, indexed for quantification:
ByteTag, ShortTag, IntTag, LongTag. -/
def mkDataTag : Fin 4 → List Nat → Int → Tag
  | 0, nm, v => .byte nm v
  | 1, nm, v => .short nm v
  | 2, nm, v => .int nm v
  | 3, nm, v => .long nm v

/-! ## The palette bit-packing codec (ChunkSection in pyanvil/components.py) -/

/-- ChunkSection._read_bits: mask width bits starting at bit start out of
num and shift them down. The mask (2 ** width) - 1 shifted left by start
is a non-negative int and is embedded as a Nat; num & mask is Int.land,
which on negative num uses two's complement with sign extension exactly
as Python does, and >> start on the non-negative result is the arithmetic
shift Int.shiftRight. -/
def readBits (num : Int) (width start : Nat) : Int :=
  Int.land num (((2 ^ width - 1) <<< start : Nat) : Int) >>> start

/-- ChunkSection._read_width_from_loc: locate the long holding the value
at the given position (an out-of-range index raises, embedded as 'none')
and extract it with _read_bits. A zero width would divide by zero in
Python; the callers proven about always pass a positive width. -/
def readWidthFromLoc (longs : List Int) (width position : Nat) : Option Int :=
  (longs.get? (position / (64 / width))).map (fun lng =>
    readBits lng width ((position % (64 / width)) * width))

/-- One iteration of the long-building loop of
ChunkSection._serialize_blockstates: slots are visited in reverse order,
the accumulator is shifted left by the width and the palette index of the
block at long_index * states_per_long + (states_per_long - state - 1) is
added, skipping block indices beyond the end. -/
def packLong (indices : List Nat) (width statesPerLong longIndex : Nat) : Nat :=
  (List.range statesPerLong).foldl (fun lng state =>
    if longIndex * statesPerLong + (statesPerLong - state - 1) < indices.length
    then (lng <<< width) + indices.getD (longIndex * statesPerLong + (statesPerLong - state - 1)) 0
    else lng) 0

/-- The long-array construction of ChunkSection._serialize_blockstates,
abstracted over the sequence of palette indices: ceil(N / states_per_long)
longs, each packed by the reverse-order loop and reinterpreted as a
signed 64-bit value by int.from_bytes(lng.to_bytes(8), signed=True).
The float ceiling math.ceil(len / states_per_long) is exact at these
magnitudes and is embedded as Nat ceiling division. -/
def packIndices (indices : List Nat) (width : Nat) : List Int :=
  (List.range ((indices.length + 64 / width - 1) / (64 / width))).map (fun li =>
    signedOfNat 8 (packLong indices width (64 / width) li))

/-- Proof helper: the little-endian value of a list of width-bit fields,
first element in the lowest bits. packLong is proven equal to this on the
slice of indices it covers. -/
def packValsLE (width : Nat) : List Nat → Nat
  | [] => 0
  | v :: vs => v + (packValsLE width vs) <<< width

/-! ## Chunk sections, components and the region header
(pyanvil/components.py; the palette serialisation methods follow the
byte-identical copy in pyanvil/components/chunk_section.py, whose only
difference from the components.py copy is that the latter misspells the
clazz_id class attribute as class_id and would raise AttributeError) -/

/-- BlockState: a name and a properties mapping, both embedded as
character-code lists; equality is by name and properties. -/
structure BState where
  name : List Nat
  props : List (List Nat × List Nat)
deriving DecidableEq

/-- Biome: a name; equality is by name. -/
structure BiomeM where
  name : List Nat
deriving DecidableEq

/-- Block: a state, the two light levels, and the dirty flag. The parent
back-reference is embedded by the position of the block inside the
section, chunk and region state below. -/
structure BlockM where
  state : BState
  blockLight : Int
  skyLight : Int
  dirty : Bool
deriving DecidableEq

/-- BiomeRegion: a biome and the dirty flag. -/
structure BiomeRegionM where
  biome : BiomeM
  dirty : Bool
deriving DecidableEq

/-- ChunkSection state: the blocks and biome-region dicts are embedded as
partial maps from their integer keys. The dirty-children set of
ComponentBase is not claim-relevant and is omitted. -/
structure SectionM where
  blocks : Nat → Option BlockM
  biomes : Nat → Option BiomeRegionM
  dirty : Bool

/-- Chunk state: the sections dict keyed by the signed vertical index. -/
structure ChunkM where
  sections : Int → Option SectionM
  dirty : Bool

/-- Region state: the chunks dict keyed by the region chunk index. -/
structure RegionM where
  chunks : Nat → Option ChunkM
  dirty : Bool

/-- The block reached by following chunk, section and block keys. -/
def blockAt (r : RegionM) (ci : Nat) (si : Int) (bi : Nat) : Option BlockM :=
  (r.chunks ci).bind (fun ch => (ch.sections si).bind (fun sec => sec.blocks bi))

/-- The dirty flag of the block at the given path. -/
def blockDirtyAt (r : RegionM) (ci : Nat) (si : Int) (bi : Nat) : Option Bool :=
  (blockAt r ci si bi).map (fun b => b.dirty)

/-- The dirty flag of the section at the given path. -/
def sectionDirtyAt (r : RegionM) (ci : Nat) (si : Int) : Option Bool :=
  ((r.chunks ci).bind (fun ch => ch.sections si)).map (fun sec => sec.dirty)

/-- The dirty flag of the chunk at the given path. -/
def chunkDirtyAt (r : RegionM) (ci : Nat) : Option Bool :=
  (r.chunks ci).map (fun ch => ch.dirty)

/-- Block.set_state followed by the mark_as_dirty walk of ComponentBase:
the block stores the new state and sets its dirty flag, and every
component on the parent chain (section, chunk, region) sets its dirty
flag; nothing else changes. The Python mutation through parent
back-references is embedded as a functional update along the path. -/
def setBlockState (r : RegionM) (ci : Nat) (si : Int) (bi : Nat) (st : BState) : RegionM :=
  { chunks := fun cj =>
      if cj = ci then
        (r.chunks ci).map (fun ch =>
          { sections := fun sj =>
              if sj = si then
                (ch.sections si).map (fun sec =>
                  { sec with
                    blocks := fun bj =>
                      if bj = bi then
                        (sec.blocks bi).map (fun b => { b with state := st, dirty := true })
                      else sec.blocks bj,
                    dirty := true })
              else ch.sections sj,
            dirty := true })
      else r.chunks cj,
    dirty := true }

/-- The property claimed for dirty propagation: after set_state the
mutated block, its section, chunk and region report dirty, and the dirty
flag of every other block, section and chunk is unchanged. -/
def DirtyPropagationSpec (r : RegionM) (ci : Nat) (si : Int) (bi : Nat) (st : BState) : Prop :=
  blockDirtyAt (setBlockState r ci si bi st) ci si bi = some true
  ∧ sectionDirtyAt (setBlockState r ci si bi st) ci si = some true
  ∧ chunkDirtyAt (setBlockState r ci si bi st) ci = some true
  ∧ (setBlockState r ci si bi st).dirty = true
  ∧ (∀ cj sj bj, cj ≠ ci ∨ sj ≠ si ∨ bj ≠ bi →
      blockDirtyAt (setBlockState r ci si bi st) cj sj bj = blockDirtyAt r cj sj bj)
  ∧ (∀ cj sj, cj ≠ ci ∨ sj ≠ si →
      sectionDirtyAt (setBlockState r ci si bi st) cj sj = sectionDirtyAt r cj sj)
  ∧ (∀ cj, cj ≠ ci → chunkDirtyAt (setBlockState r ci si bi st) cj = chunkDirtyAt r cj)

/-- The Sizes enum: REGION_WIDTH. -/
def regionWidth : Nat := 32

/-- The Sizes enum: SUBCHUNK_WIDTH. -/
def subchunkWidth : Nat := 16

/-- The Sizes enum: BIOME_REGION_WIDTH. -/
def biomeRegionWidth : Nat := 4

/-- The Sizes enum: CHUNK_SECTOR_SIZE. -/
def chunkSectorSize : Nat := 4096

/-- The blank dirty block Block(dirty=True) built by Chunk.get_section
for a missing section: default state minecraft:air, zero light levels. -/
def blankDirtyBlock : BlockM :=
  { state := { name := [109, 105, 110, 101, 99, 114, 97, 102, 116, 58, 97, 105, 114],
               props := [] },
    blockLight := 0, skyLight := 0, dirty := true }

/-- The blocks dict Chunk.get_section builds for a missing section:
one blank dirty block for every i in range(Sizes.REGION_WIDTH ** 3). -/
def freshSectionBlocks : List BlockM :=
  (List.range (regionWidth ^ 3)).map (fun _ => blankDirtyBlock)

/-- The biome_regions dict Chunk.get_section builds for a missing
section: BiomeRegion(dirty=True) for every i in
range((Sizes.REGION_WIDTH // Sizes.BIOME_REGION_WIDTH) ** 3). The call
omits the required biome argument of BiomeRegion, so constructing the
first element raises TypeError; the comprehension is embedded as 'none'
whenever the range is non-empty. -/
def freshSectionBiomeRegions : Option (List BiomeRegionM) :=
  if (regionWidth / biomeRegionWidth) ^ 3 = 0 then some [] else none

/-- The tag name characters of 'palette'. -/
def palKey : List Nat := [112, 97, 108, 101, 116, 116, 101]

/-- The tag name characters of 'data'. -/
def dataKey : List Nat := [100, 97, 116, 97]

/-- The tag name characters of 'block_states'. -/
def blockStatesKey : List Nat := [98, 108, 111, 99, 107, 95, 115, 116, 97, 116, 101, 115]

/-- The tag name characters of 'biomes'. -/
def biomesKey : List Nat := [98, 105, 111, 109, 101, 115]

/-- The tag name characters of 'Name'. -/
def nameKey : List Nat := [78, 97, 109, 101]

/-- The tag name characters of 'Properties'. -/
def propsKey : List Nat := [80, 114, 111, 112, 101, 114, 116, 105, 101, 115]

/-- math.ceil(math.log(n, 2)) as used to size palette indices; the float
computation is exact at every palette size the proofs evaluate it at. -/
def widthCeilLog2 (n : Nat) : Nat := Nat.clog 2 n

/-- ChunkSection._serialize_states_palette: a ListTag named palette of
compound subtype whose items carry a Name string and, when the state has
properties, a Properties compound of string tags. -/
def serializeStatesPalette (statesPalette : List BState) : Tag :=
  .list palKey 10 (statesPalette.map (fun st =>
    if st.props.length ≠ 0 then
      .compound noneName [.string nameKey st.name,
        .compound propsKey (st.props.map (fun pr => .string pr.1 pr.2))]
    else .compound noneName [.string nameKey st.name]))

/-- ChunkSection._serialize_blockstates: a compound named block_states
holding the palette list and, unconditionally, a data long array packing
the palette index of every block at width max(4, ceil(log2(palette
size))); the packing loop and the signed reinterpretation are packIndices
above. -/
def serializeBlockstates (statesPalette : List BState) (blocks : List BState)
    (stateMapping : BState → Nat) : Tag :=
  .compound blockStatesKey
    [serializeStatesPalette statesPalette,
     .longArray dataKey
       ((packIndices (blocks.map stateMapping) (max 4 (widthCeilLog2 statesPalette.length))).map
         (fun v => .long noneName v))]

/-- ChunkSection._serialize_biomes_palette: a ListTag named palette of
string subtype whose items are the biome names, each tagged Name. -/
def serializeBiomesPalette (biomesPalette : List BiomeM) : Tag :=
  .list palKey 8 (biomesPalette.map (fun b => .string nameKey b.name))

/-- ChunkSection._serialize_biomes: a compound named biomes holding the
palette list and a data long array at width ceil(log2(palette size)).
With a single-entry palette that width is zero and the computation of
biomes_per_long = 64 // width raises ZeroDivisionError, embedded as
'none'. -/
def serializeBiomes (biomesPalette : List BiomeM) (biomeRegions : List BiomeM)
    (biomeMapping : BiomeM → Nat) : Option Tag :=
  if widthCeilLog2 biomesPalette.length = 0 then none
  else some (.compound biomesKey
    [serializeBiomesPalette biomesPalette,
     .longArray dataKey
       ((packIndices (biomeRegions.map biomeMapping) (widthCeilLog2 biomesPalette.length)).map
         (fun v => .long noneName v))])

/-- CompoundTag.has on the embedded compound: whether a child of the
given name is present. -/
def hasChildNamed (t : Tag) (nm : List Nat) : Bool :=
  match t with
  | .compound _ cs => cs.any (fun c => nameOf c == nm)
  | _ => false

/-- The block-state index decoding of ChunkSection.from_nbt: a
single-entry palette yields 4096 zero indices without touching data;
otherwise 4096 indices are read from the data longs at width
max(4, (palette size - 1).bit_length()), an out-of-range read failing as
'none'. -/
def decodeStateIndexes (paletteLen : Nat) (flatstates : List Int) : Option (List Int) :=
  if paletteLen = 1 then some (List.replicate (16 ^ 3) ((0 : Int)))
  else (List.range (16 ^ 3)).mapM (fun i =>
    readWidthFromLoc flatstates (max 4 (Nat.size (paletteLen - 1))) i)

/-- The biome index decoding of ChunkSection.from_nbt: a single-entry
palette yields [0] * 16 ** 3, i.e. 4096 indices, not 64; otherwise the
code calls _read_width_from_loc(flatbiomes, pack_size, 64), passing
(SUBCHUNK_WIDTH // BIOME_REGION_WIDTH) ** 3 = 64 as the position
argument, which returns a single integer, and iterating that integer in
enumerate raises TypeError, embedded as 'none'. -/
def decodeBiomeIndexes (paletteLen : Nat) (flatbiomes : List Int) : Option (List Nat) :=
  if paletteLen = 1 then some (List.replicate (16 ^ 3) 0)
  else (readWidthFromLoc flatbiomes (Nat.size (paletteLen - 1)) 64).bind (fun _ => none)

/-- ChunkSection._divide_nibbles: for each signed byte s the code appends
s & f1_mask and then s & f2_mask, where f2_mask = (2 ** 4) - 1 = 15 and
f1_mask = f2_mask << 4 = 240; the first value is masked but never shifted
down. -/
def divideNibbles : List Int → List Int
  | [] => []
  | s :: rest => Int.land s 240 :: Int.land s 15 :: divideNibbles rest

/-- math.ceil((datalen + 5) / 4096.0) * 4096 of Region.save: the
sector-aligned on-disk length of a chunk payload of datalen compressed
bytes plus the 5-byte header; the float ceiling is exact at these
magnitudes and is embedded as Nat ceiling division. -/
def blockDataLen (datalen : Nat) : Nat := ((datalen + 5 + 4095) / 4096) * 4096

/-- The per-entry offset adjustment of the Region.save loop: an entry
whose offset exceeds the rewritten chunk's offset loc moves by the
difference between the new sector-aligned length bdl and the prior
sector length loc.2. -/
def shiftEntry (loc : Int × Int) (bdl : Int) (other : Int × Int) : Int × Int :=
  if other.1 > loc.1 then (other.1 + (bdl - loc.2), other.2) else other

/-- The ways a Region.save iteration aborts: an uncaught AttributeError
(Chunk.pack referencing the misspelled CompoundTag.class_id, or
Region.save referencing the nonexistent self.debug), the sys.exit(0) of
the ungenerated-chunk guard, and an IndexError on the header-table
lookup. -/
inductive PyErr where
  | attributeError : PyErr
  | systemExit : PyErr
  | indexError : PyErr
deriving DecidableEq

/-- Chunk.package_and_compress: it calls Chunk.pack, which constructs
ListTag(CompoundTag.class_id, ...), but the tag classes of pyanvil/nbt.py
define only the attribute clazz_id, so every call raises AttributeError
before any payload length exists. -/
def chunkPackAndCompress : Except PyErr Nat := .error .attributeError

/-- The header-table effect of one iteration of the Region.save loop on
chunk index with a freshly compressed payload of datalen bytes, in source
order: look up the location entry (loc, raising IndexError out of range);
evaluate 'if data_len_diff != 0 and self.debug', which raises
AttributeError whenever the sector-aligned length changes, because
neither Region nor ComponentBase defines a debug attribute (the 'and'
short-circuits when the difference is zero); store the new sector-aligned
length in the entry; exit via sys.exit(0) when the (updated) entry has a
zero offset or length (the ungenerated-chunk guard; the length compared
is the just-written block_data_len, since loc aliases the mutated row);
and shift the offset of every entry whose offset exceeds the old offset
by the length difference. -/
def saveShift (locs : List (Int × Int)) (index : Nat) (datalen : Nat) :
    Except PyErr (List (Int × Int)) :=
  match locs.get? index with
  | none => .error .indexError
  | some loc =>
    if ((blockDataLen datalen : Int)) - loc.2 ≠ 0 then .error .attributeError
    else if loc.1 = 0 ∨ ((blockDataLen datalen : Int)) = 0 then .error .systemExit
    else .ok ((locs.set index (loc.1, (blockDataLen datalen : Int))).map
      (shiftEntry loc (blockDataLen datalen)))

/-- The Region.save loop over the cached chunks (each given by its header
index), threading the header table: each iteration first packs and
compresses the chunk, then applies the header-table step with the payload
length. -/
def saveChunksLoop : List Nat → List (Int × Int) → Except PyErr (List (Int × Int))
  | [], locs => .ok locs
  | index :: rest, locs =>
    (chunkPackAndCompress.bind (fun datalen => saveShift locs index datalen)).bind
      (fun locs2 => saveChunksLoop rest locs2)

/-- Region.save up to its header-table effect: an error value when the
loop dies in an uncaught exception or in sys.exit(0). -/
def regionSave (locs : List (Int × Int)) (chunkIndexes : List Nat) :
    Except PyErr (List (Int × Int)) :=
  saveChunksLoop chunkIndexes locs

/-- The file content after Region.save: the file is rewritten (here: by
an arbitrary rendering of the final header table) only after the loop
completes; when the loop dies, the file keeps its prior content. -/
def regionSaveResult (locs : List (Int × Int)) (chunkIndexes : List Nat)
    (file : List Nat) (render : List (Int × Int) → List Nat) : List Nat :=
  match regionSave locs chunkIndexes with
  | .ok locs2 => render locs2
  | .error _ => file

/-- A concrete nested tag exercising the twelve tag kinds, used as the
round-trip witness. -/
def witnessTag : Tag := .compound [114] [
  .byte [98] (-5),
  .string [115] [104, 105],
  .list [108] 3 [.int noneName 7, .int noneName (-8)],
  .byteArray [97] [.byte noneName 1, .byte noneName (-2)],
  .compound [99] [
    .long [76] 123456789,
    .float [70] 1069547520,
    .double [68] 4609434218613702656,
    .short [83] 300],
  .intArray [105] [.int noneName 100000],
  .longArray [106] [.long noneName (-1)],
  .list [101] 0 []]

/-- A concrete clean block, used in the dirty-propagation witness. -/
def witnessBlock : BlockM :=
  { state := { name := [97], props := [] },
    blockLight := 0, skyLight := 0, dirty := false }

/-- A concrete one-block section, used in the dirty-propagation witness. -/
def witnessSection : SectionM :=
  { blocks := fun bj => if bj = 0 then some witnessBlock else none,
    biomes := fun _ => none,
    dirty := false }

/-- A concrete one-section chunk, used in the dirty-propagation witness. -/
def witnessChunk : ChunkM :=
  { sections := fun sj => if sj = 0 then some witnessSection else none,
    dirty := false }

/-- A concrete one-chunk, one-section, one-block region state, used as
the dirty-propagation witness. -/
def witnessRegion : RegionM :=
  { chunks := fun cj => if cj = 0 then some witnessChunk else none,
    dirty := false }

/-! ## Theorems -/

theorem natToBytesBE_length (k : Nat) : ∀ v, (natToBytesBE k v).length = k := by
  induction k with
  | zero => intro v; rfl
  | succ k ih =>
    intro v
    simp [natToBytesBE, ih]

theorem foldl_natToBytesBE (k : Nat) :
    ∀ v a, List.foldl (fun a b => a * 256 + b) a (natToBytesBE k v)
      = a * 256 ^ k + v % 256 ^ k := by
  induction k with
  | zero => intro v a; simp [natToBytesBE, bytesToNatBE, Nat.mod_one]
  | succ k ih =>
    intro v a
    have hq : v = 256 * (v / 256) + v % 256 := by omega
    have hmod : v % 256 ^ (k + 1) = 256 * (v / 256 % 256 ^ k) + v % 256 := by
      conv_lhs => rw [hq]
      have h1 : (256 * (v / 256) + v % 256) % (256 ^ (k + 1))
          = (256 * (v / 256) % (256 * 256 ^ k) + v % 256 % (256 * 256 ^ k)) % (256 * 256 ^ k) := by
        rw [pow_succ']
        exact Nat.add_mod _ _ _
      rw [h1, Nat.mul_mod_mul_left]
      have h4 : 1 ≤ 256 ^ k := Nat.pos_pow_of_pos k (by norm_num)
      have hvlt : v % 256 < 256 * 256 ^ k := by omega
      rw [Nat.mod_eq_of_lt hvlt]
      have h2 : v / 256 % 256 ^ k < 256 ^ k := Nat.mod_lt _ (Nat.pos_pow_of_pos k (by norm_num))
      have hsum : 256 * (v / 256 % 256 ^ k) + v % 256 < 256 * 256 ^ k := by omega
      exact Nat.mod_eq_of_lt hsum
    calc List.foldl (fun a b => a * 256 + b) a (natToBytesBE (k + 1) v)
        = (a * 256 ^ k + v / 256 % 256 ^ k) * 256 + v % 256 := by
          simp [natToBytesBE, ih]
    _ = a * 256 ^ (k + 1) + (256 * (v / 256 % 256 ^ k) + v % 256) := by ring
    _ = a * 256 ^ (k + 1) + v % 256 ^ (k + 1) := by rw [hmod]

theorem bytesToNatBE_natToBytesBE (k v : Nat) :
    bytesToNatBE (natToBytesBE k v) = v % 256 ^ k := by
  simpa using foldl_natToBytesBE k v 0

theorem readBytes_exact (l rest : List Nat) :
    readBytes l.length (l ++ rest) = some (l, rest) := by
  simp [readBytes, List.take_left, List.drop_left]

theorem readUIntBE_natToBytesBE (k v : Nat) (rest : List Nat) (h : v < 256 ^ k) :
    readUIntBE k (natToBytesBE k v ++ rest) = some (v, rest) := by
  have hl := natToBytesBE_length k v
  have hr : readBytes k (natToBytesBE k v ++ rest) = some (natToBytesBE k v, rest) := by
    have h0 := readBytes_exact (natToBytesBE k v) rest
    rwa [hl] at h0
  simp [readUIntBE, hr, bytesToNatBE_natToBytesBE, Nat.mod_eq_of_lt h]

theorem pow_256_eq (k : Nat) : (256 : Nat) ^ k = 2 ^ (8 * k) := by
  rw [show (256 : Nat) = 2 ^ 8 by norm_num, ← pow_mul]

theorem readSIntBE_intToBytesBE (k : Nat) (v : Int) (rest : List Nat)
    (hk : 1 ≤ k) (hlo : -(2 ^ (8 * k - 1)) ≤ v) (hhi : v < 2 ^ (8 * k - 1)) :
    readSIntBE k (intToBytesBE k v ++ rest) = some (v, rest) := by
  have hm : 8 * k - 1 + 1 = 8 * k := by omega
  have hM : ((2 : Int) ^ (8 * k)) = 2 ^ (8 * k - 1) * 2 := by
    rw [← pow_succ, hm]
  have hMpos : (0 : Int) < 2 ^ (8 * k) := by positivity
  have hu : v % ((2 : Int) ^ (8 * k)) = if 0 ≤ v then v else v + 2 ^ (8 * k) := by
    by_cases h0 : 0 ≤ v
    · simp only [if_pos h0]
      apply Int.emod_eq_of_lt h0
      calc v < 2 ^ (8 * k - 1) := hhi
      _ ≤ 2 ^ (8 * k) := by
          apply pow_le_pow_right (by norm_num)
          omega
    · simp only [if_neg h0]
      have h1 : (v + 2 ^ (8 * k)) % ((2 : Int) ^ (8 * k)) = v % ((2 : Int) ^ (8 * k)) := by
        simp [Int.add_mul_emod_self_left]
      rw [← h1]
      apply Int.emod_eq_of_lt
      · have : -(2 ^ (8 * k)) ≤ v := by
          calc -(2 ^ (8 * k)) ≤ -(2 ^ (8 * k - 1)) := by
                simp only [neg_le_neg_iff]
                apply pow_le_pow_right (by norm_num)
                omega
          _ ≤ v := hlo
        omega
      · omega
  set u : Nat := (v % ((2 : Int) ^ (8 * k))).toNat with hudef
  have huval : (u : Int) = if 0 ≤ v then v else v + 2 ^ (8 * k) := by
    rw [hudef, hu]
    by_cases h0 : 0 ≤ v
    · simp [h0]
    · have : (0 : Int) ≤ v + 2 ^ (8 * k) := by
        have : -(2 ^ (8 * k)) ≤ v := by
          calc -(2 ^ (8 * k)) ≤ -(2 ^ (8 * k - 1)) := by
                simp only [neg_le_neg_iff]
                apply pow_le_pow_right (by norm_num)
                omega
          _ ≤ v := hlo
        omega
      simp [h0, Int.toNat_of_nonneg this]
  have hub : u < 2 ^ (8 * k) := by
    have h2 : ((2 : Nat) ^ (8 * k) : Int) = (2 : Int) ^ (8 * k) := by push_cast; ring
    by_cases h0 : 0 ≤ v
    · have : (u : Int) < 2 ^ (8 * k) := by
        rw [huval]; simp only [if_pos h0]
        calc v < 2 ^ (8 * k - 1) := hhi
        _ ≤ 2 ^ (8 * k) := by
            apply pow_le_pow_right (by norm_num)
            omega
      exact_mod_cast (h2 ▸ this)
    · have : (u : Int) < 2 ^ (8 * k) := by
        rw [huval]; simp only [if_neg h0]
        push_neg at h0
        omega
      exact_mod_cast (h2 ▸ this)
  have hread : readUIntBE k (natToBytesBE k u ++ rest) = some (u, rest) := by
    apply readUIntBE_natToBytesBE
    rw [pow_256_eq]; exact hub
  have hsigned : signedOfNat k u = v := by
    unfold signedOfNat
    by_cases h0 : 0 ≤ v
    · have huv : (u : Int) = v := by rw [huval]; simp [h0]
      have : u < 2 ^ (8 * k - 1) := by
        have : (u : Int) < ((2 : Int) ^ (8 * k - 1)) := huv ▸ hhi
        have h2 : ((2 : Nat) ^ (8 * k - 1) : Int) = (2 : Int) ^ (8 * k - 1) := by push_cast; ring
        exact_mod_cast (h2 ▸ this)
      simp [this, huv]
    · have huv : (u : Int) = v + 2 ^ (8 * k) := by rw [huval]; simp [h0]
      have hge : ¬ (u < 2 ^ (8 * k - 1)) := by
        intro hlt
        have h3 : (u : Int) < (2 : Int) ^ (8 * k - 1) := by
          have h2 : ((2 : Nat) ^ (8 * k - 1) : Int) = (2 : Int) ^ (8 * k - 1) := by push_cast; ring
          exact_mod_cast (h2 ▸ (by exact_mod_cast hlt : ((u : Int)) < ((2 : Nat) ^ (8 * k - 1) : Int)))
        rw [huv] at h3
        push_neg at h0
        have : v + 2 ^ (8 * k) ≥ 2 ^ (8 * k - 1) := by
          have : v ≥ -(2 ^ (8 * k - 1)) := hlo
          rw [hM]
          omega
        omega
      simp only [if_neg hge]
      rw [huv]; ring
  unfold readSIntBE readUIntBE at *
  unfold intToBytesBE
  rw [← hudef]
  have hrb : readBytes k (natToBytesBE k u ++ rest) = some (natToBytesBE k u, rest) := by
    have h0 := readBytes_exact (natToBytesBE k u) rest
    rwa [natToBytesBE_length k u] at h0
  simp [hrb, bytesToNatBE_natToBytesBE, Nat.mod_eq_of_lt (pow_256_eq k ▸ hub), hsigned]


theorem serNamedList_cons (t : Tag) (ts : List Tag) :
    serNamedList (t :: ts) = serNamed t ++ serNamedList ts := by
  simp [serNamedList, serNamed]

theorem sizeT_pos (t : Tag) : 1 ≤ sizeT t := by
  cases t <;> simp [sizeT]

theorem withName_nameOf (t : Tag) : withName (nameOf t) t = t := by
  cases t <;> rfl

theorem tagId_ne_zero (t : Tag) : tagId t ≠ 0 := by
  cases t <;> simp [tagId]

theorem nameWF_of_isWF (t : Tag) (h : isWF t = true) : nameWF (nameOf t) = true := by
  cases t <;> simp [isWF, nameOf, Bool.and_eq_true] at h ⊢ <;> tauto

theorem readUIntBE_cons (x : Nat) (rest : List Nat) :
    readUIntBE 1 (x :: rest) = some (x, rest) := by
  simp [readUIntBE, readBytes, bytesToNatBE]

theorem readSIntBE_natToBytesBE (k n : Nat) (rest : List Nat) (h : n < 2 ^ (8 * k - 1)) :
    readSIntBE k (natToBytesBE k n ++ rest) = some ((n : Int), rest) := by
  have hb : readBytes k (natToBytesBE k n ++ rest) = some (natToBytesBE k n, rest) := by
    have h0 := readBytes_exact (natToBytesBE k n) rest
    rwa [natToBytesBE_length k n] at h0
  have hlt : n < 256 ^ k := by
    rw [pow_256_eq]
    calc n < 2 ^ (8 * k - 1) := h
    _ ≤ 2 ^ (8 * k) := Nat.pow_le_pow_right (by norm_num) (by omega)
  simp [readSIntBE, hb, bytesToNatBE_natToBytesBE, Nat.mod_eq_of_lt hlt, signedOfNat, h]

theorem readNamedHeader_serNamed (t : Tag) (tail : List Nat)
    (h : nameWF (nameOf t) = true) :
    readNamedHeader (serNamed t ++ tail) = some (tagId t, nameOf t, serPayload t ++ tail) := by
  have hlen : (nameOf t).length < 65536 := by
    simp [nameWF, Bool.and_eq_true, decide_eq_true_eq] at h
    exact h.1
  have h2 : readUIntBE 2 (natToBytesBE 2 (nameOf t).length ++ (nameOf t ++ (serPayload t ++ tail)))
      = some ((nameOf t).length, nameOf t ++ (serPayload t ++ tail)) :=
    readUIntBE_natToBytesBE 2 _ _ (by norm_num; exact hlen)
  have h3 : readBytes (nameOf t).length (nameOf t ++ (serPayload t ++ tail))
      = some (nameOf t, serPayload t ++ tail) := readBytes_exact _ _
  simp [readNamedHeader, serNamed, writeString, List.append_assoc, readUIntBE_cons, h2, h3]

theorem parseDataPayload_wf (t : Tag) (nm rest : List Nat)
    (hid : tagId t ≤ 6) (h : isWF t = true) :
    parseDataPayload (tagId t) nm (serPayload t ++ rest) = some (withName nm t, rest) := by
  cases t with
  | byte nm0 v =>
    simp only [isWF, Bool.and_eq_true, decide_eq_true_eq] at h
    obtain ⟨hnm, hlo, hhi⟩ := h
    have hr := readSIntBE_intToBytesBE 1 v rest (by norm_num)
      (by norm_num <;> omega) (by norm_num <;> omega)
    simp [tagId, serPayload, parseDataPayload, withName, hr]
  | short nm0 v =>
    simp only [isWF, Bool.and_eq_true, decide_eq_true_eq] at h
    obtain ⟨hnm, hlo, hhi⟩ := h
    have hr := readSIntBE_intToBytesBE 2 v rest (by norm_num)
      (by norm_num <;> omega) (by norm_num <;> omega)
    simp [tagId, serPayload, parseDataPayload, withName, hr]
  | int nm0 v =>
    simp only [isWF, Bool.and_eq_true, decide_eq_true_eq] at h
    obtain ⟨hnm, hlo, hhi⟩ := h
    have hr := readSIntBE_intToBytesBE 4 v rest (by norm_num)
      (by norm_num <;> omega) (by norm_num <;> omega)
    simp [tagId, serPayload, parseDataPayload, withName, hr]
  | long nm0 v =>
    simp only [isWF, Bool.and_eq_true, decide_eq_true_eq] at h
    obtain ⟨hnm, hlo, hhi⟩ := h
    have hr := readSIntBE_intToBytesBE 8 v rest (by norm_num)
      (by norm_num <;> omega) (by norm_num <;> omega)
    simp [tagId, serPayload, parseDataPayload, withName, hr]
  | float nm0 bits =>
    simp only [isWF, Bool.and_eq_true, decide_eq_true_eq] at h
    obtain ⟨hnm, hb⟩ := h
    have hr := readUIntBE_natToBytesBE 4 bits rest (by norm_num <;> omega)
    simp [tagId, serPayload, parseDataPayload, withName, hr]
  | double nm0 bits =>
    simp only [isWF, Bool.and_eq_true, decide_eq_true_eq] at h
    obtain ⟨hnm, hb⟩ := h
    have hr := readUIntBE_natToBytesBE 8 bits rest (by norm_num <;> omega)
    simp [tagId, serPayload, parseDataPayload, withName, hr]
  | string nm0 v => simp [tagId] at hid
  | byteArray nm0 cs => simp [tagId] at hid
  | intArray nm0 cs => simp [tagId] at hid
  | longArray nm0 cs => simp [tagId] at hid
  | list nm0 sub cs => simp [tagId] at hid
  | compound nm0 cs => simp [tagId] at hid

theorem parseDataPayload_elem (id : Nat) (t : Tag) (rest : List Nat)
    (h : isDataElem id t = true) :
    parseDataPayload id noneName (serPayload t ++ rest) = some (t, rest) := by
  cases t with
  | byte nm0 v =>
    simp only [isDataElem, Bool.and_eq_true, decide_eq_true_eq] at h
    obtain ⟨⟨hid, hnm⟩, hlo, hhi⟩ := h
    subst hid; subst hnm
    have hr := readSIntBE_intToBytesBE 1 v rest (by norm_num)
      (by norm_num <;> omega) (by norm_num <;> omega)
    simp [serPayload, parseDataPayload, hr]
  | int nm0 v =>
    simp only [isDataElem, Bool.and_eq_true, decide_eq_true_eq] at h
    obtain ⟨⟨hid, hnm⟩, hlo, hhi⟩ := h
    subst hid; subst hnm
    have hr := readSIntBE_intToBytesBE 4 v rest (by norm_num)
      (by norm_num <;> omega) (by norm_num <;> omega)
    simp [serPayload, parseDataPayload, hr]
  | long nm0 v =>
    simp only [isDataElem, Bool.and_eq_true, decide_eq_true_eq] at h
    obtain ⟨⟨hid, hnm⟩, hlo, hhi⟩ := h
    subst hid; subst hnm
    have hr := readSIntBE_intToBytesBE 8 v rest (by norm_num)
      (by norm_num <;> omega) (by norm_num <;> omega)
    simp [serPayload, parseDataPayload, hr]
  | short nm0 v => simp [isDataElem] at h
  | float nm0 b => simp [isDataElem] at h
  | double nm0 b => simp [isDataElem] at h
  | string nm0 v => simp [isDataElem] at h
  | byteArray nm0 cs => simp [isDataElem] at h
  | intArray nm0 cs => simp [isDataElem] at h
  | longArray nm0 cs => simp [isDataElem] at h
  | list nm0 sub cs => simp [isDataElem] at h
  | compound nm0 cs => simp [isDataElem] at h

theorem readDataElems_roundtrip (id : Nat) (ts : List Tag) (rest : List Nat)
    (h : ts.all (isDataElem id) = true) :
    readDataElems id ts.length (serPayloadList ts ++ rest) = some (ts, rest) := by
  induction ts with
  | nil => simp [readDataElems, serPayloadList]
  | cons t ts ih =>
    simp only [List.all_cons, Bool.and_eq_true] at h
    have h1 := parseDataPayload_elem id t (serPayloadList ts ++ rest) h.1
    simp [readDataElems, serPayloadList, List.append_assoc, h1, ih h.2]

theorem parsePayload_flat (fuel id : Nat) (nm bs : List Nat) (h : id ≤ 6) :
    parsePayload fuel id nm bs = parseDataPayload id nm bs := by
  have hcore : ∀ rl rc, parsePayloadCore rl rc id nm bs = parseDataPayload id nm bs := by
    intro rl rc
    rw [parsePayloadCore]
    rw [if_neg (by omega), if_neg (by omega), if_neg (by omega), if_neg (by omega),
      if_neg (by omega), if_neg (by omega)]
  cases fuel with
  | zero => exact hcore (fun _ _ _ => none) (fun _ => none)
  | succ f => exact hcore (parseFns f).2.1 (parseFns f).2.2

theorem parsePayload_eight (fuel : Nat) (nm bs : List Nat) :
    parsePayload fuel 8 nm bs
      = (readUIntBE 2 bs).bind (fun p =>
          (readBytes p.1 p.2).bind (fun q => some (.string nm q.1, q.2))) := by
  cases fuel <;> rfl

theorem parsePayload_seven (fuel : Nat) (nm bs : List Nat) :
    parsePayload fuel 7 nm bs
      = (readSIntBE 4 bs).bind (fun p =>
          (readDataElems 1 p.1.toNat p.2).bind (fun q => some (.byteArray nm q.1, q.2))) := by
  cases fuel <;> rfl

theorem parsePayload_eleven (fuel : Nat) (nm bs : List Nat) :
    parsePayload fuel 11 nm bs
      = (readSIntBE 4 bs).bind (fun p =>
          (readDataElems 3 p.1.toNat p.2).bind (fun q => some (.intArray nm q.1, q.2))) := by
  cases fuel <;> rfl

theorem parsePayload_twelve (fuel : Nat) (nm bs : List Nat) :
    parsePayload fuel 12 nm bs
      = (readSIntBE 4 bs).bind (fun p =>
          (readDataElems 4 p.1.toNat p.2).bind (fun q => some (.longArray nm q.1, q.2))) := by
  cases fuel <;> rfl

theorem parsePayload_nine (f : Nat) (nm bs : List Nat) :
    parsePayload (f + 1) 9 nm bs
      = (readUIntBE 1 bs).bind (fun p =>
          (readSIntBE 4 p.2).bind (fun q =>
            (parseListElems f p.1 q.1.toNat q.2).bind (fun r =>
              some (.list nm p.1 r.1, r.2)))) := rfl

theorem parsePayload_ten (f : Nat) (nm bs : List Nat) :
    parsePayload (f + 1) 10 nm bs
      = (parseCompoundItems f bs).bind (fun p => some (.compound nm p.1, p.2)) := rfl

theorem parseListElems_zero_count (fuel sub : Nat) (bs : List Nat) :
    parseListElems fuel sub 0 bs = some ([], bs) := by
  cases fuel <;> rfl

theorem parseListElems_succ_count (f sub c : Nat) (bs : List Nat) :
    parseListElems (f + 1) sub (c + 1) bs
      = (parsePayload f sub noneName bs).bind (fun p =>
          (parseListElems f sub c p.2).bind (fun q => some (p.1 :: q.1, q.2))) := rfl

theorem parseCompoundItems_end (fuel : Nat) (rest : List Nat) :
    parseCompoundItems fuel (0 :: rest) = some ([], rest) := by
  cases fuel <;> rfl

theorem parseCompoundItems_step (f b : Nat) (rest : List Nat) (h : b ≠ 0) :
    parseCompoundItems (f + 1) (b :: rest)
      = (readNamedHeader (b :: rest)).bind (fun p =>
          (parsePayload f p.1 p.2.1 p.2.2).bind (fun q =>
            (parseCompoundItems f q.2).bind (fun r => some (q.1 :: r.1, r.2)))) := by
  show parseCompoundItemsCore (parsePayload f) (parseCompoundItems f) (b :: rest) = _
  rw [parseCompoundItemsCore, if_neg h]

theorem parse_roundtrip_aux (fuel : Nat) :
    (∀ t nm rest, isWF t = true → sizeT t ≤ fuel →
      parsePayload fuel (tagId t) nm (serPayload t ++ rest) = some (withName nm t, rest))
    ∧ (∀ sub ts rest, isWFElems sub ts = true → sizeTList ts ≤ fuel →
      parseListElems fuel sub ts.length (serPayloadList ts ++ rest) = some (ts, rest))
    ∧ (∀ ts rest, isWFList ts = true → sizeTList ts ≤ fuel →
      parseCompoundItems fuel (serNamedList ts ++ 0 :: rest) = some (ts, rest)) := by
  induction fuel using Nat.strong_induction_on with
  | _ fuel ih =>
    refine ⟨?_, ?_, ?_⟩
    · intro t nm rest hwf hsz
      cases t with
      | byte nm0 v =>
        rw [show tagId (Tag.byte nm0 v) = 1 from rfl, parsePayload_flat fuel 1 nm _ (by omega)]
        exact parseDataPayload_wf (.byte nm0 v) nm rest (by simp [tagId]) hwf
      | short nm0 v =>
        rw [show tagId (Tag.short nm0 v) = 2 from rfl, parsePayload_flat fuel 2 nm _ (by omega)]
        exact parseDataPayload_wf (.short nm0 v) nm rest (by simp [tagId]) hwf
      | int nm0 v =>
        rw [show tagId (Tag.int nm0 v) = 3 from rfl, parsePayload_flat fuel 3 nm _ (by omega)]
        exact parseDataPayload_wf (.int nm0 v) nm rest (by simp [tagId]) hwf
      | long nm0 v =>
        rw [show tagId (Tag.long nm0 v) = 4 from rfl, parsePayload_flat fuel 4 nm _ (by omega)]
        exact parseDataPayload_wf (.long nm0 v) nm rest (by simp [tagId]) hwf
      | float nm0 bits =>
        rw [show tagId (Tag.float nm0 bits) = 5 from rfl, parsePayload_flat fuel 5 nm _ (by omega)]
        exact parseDataPayload_wf (.float nm0 bits) nm rest (by simp [tagId]) hwf
      | double nm0 bits =>
        rw [show tagId (Tag.double nm0 bits) = 6 from rfl, parsePayload_flat fuel 6 nm _ (by omega)]
        exact parseDataPayload_wf (.double nm0 bits) nm rest (by simp [tagId]) hwf
      | string nm0 v =>
        simp only [isWF, Bool.and_eq_true, decide_eq_true_eq] at hwf
        obtain ⟨⟨hnm, hlen⟩, hascii⟩ := hwf
        have h2 := readUIntBE_natToBytesBE 2 v.length (v ++ rest) (by norm_num <;> omega)
        have h3 := readBytes_exact v rest
        simp only [tagId, serPayload, parsePayload_eight, List.append_assoc]
        simp [h2, h3, withName, Option.some_bind]
      | byteArray nm0 cs =>
        simp only [isWF, Bool.and_eq_true, decide_eq_true_eq] at hwf
        obtain ⟨⟨hnm, hlen⟩, helems⟩ := hwf
        have h2 := readSIntBE_natToBytesBE 4 cs.length (serPayloadList cs ++ rest)
          (by norm_num <;> omega)
        have h3 := readDataElems_roundtrip 1 cs rest helems
        simp only [tagId, serPayload, parsePayload_seven, List.append_assoc]
        simp [h2, h3, withName, Option.some_bind]
      | intArray nm0 cs =>
        simp only [isWF, Bool.and_eq_true, decide_eq_true_eq] at hwf
        obtain ⟨⟨hnm, hlen⟩, helems⟩ := hwf
        have h2 := readSIntBE_natToBytesBE 4 cs.length (serPayloadList cs ++ rest)
          (by norm_num <;> omega)
        have h3 := readDataElems_roundtrip 3 cs rest helems
        simp only [tagId, serPayload, parsePayload_eleven, List.append_assoc]
        simp [h2, h3, withName, Option.some_bind]
      | longArray nm0 cs =>
        simp only [isWF, Bool.and_eq_true, decide_eq_true_eq] at hwf
        obtain ⟨⟨hnm, hlen⟩, helems⟩ := hwf
        have h2 := readSIntBE_natToBytesBE 4 cs.length (serPayloadList cs ++ rest)
          (by norm_num <;> omega)
        have h3 := readDataElems_roundtrip 4 cs rest helems
        simp only [tagId, serPayload, parsePayload_twelve, List.append_assoc]
        simp [h2, h3, withName, Option.some_bind]
      | list nm0 sub cs =>
        simp only [isWF, Bool.and_eq_true, decide_eq_true_eq] at hwf
        obtain ⟨⟨⟨hnm, hsub⟩, hlen⟩, helems⟩ := hwf
        simp only [sizeT] at hsz
        cases fuel with
        | zero => omega
        | succ f =>
          have h1 := readUIntBE_natToBytesBE 1 sub
            (natToBytesBE 4 cs.length ++ (serPayloadList cs ++ rest)) (by norm_num <;> omega)
          have h2 := readSIntBE_natToBytesBE 4 cs.length (serPayloadList cs ++ rest)
            (by norm_num <;> omega)
          have hB := (ih f (Nat.lt_succ_self f)).2.1 sub cs rest helems (by omega)
          simp only [tagId, serPayload, parsePayload_nine, List.append_assoc]
          simp [h1, h2, hB, withName, Option.some_bind]
      | compound nm0 cs =>
        simp only [isWF, Bool.and_eq_true, decide_eq_true_eq] at hwf
        obtain ⟨⟨hnm, hnodup⟩, hlist⟩ := hwf
        simp only [sizeT] at hsz
        cases fuel with
        | zero => omega
        | succ f =>
          have hC := (ih f (Nat.lt_succ_self f)).2.2 cs rest hlist (by omega)
          simp only [tagId, serPayload, parsePayload_ten, List.append_assoc,
            List.singleton_append]
          simp [hC, withName, Option.some_bind]
    · intro sub ts rest hwf hsz
      cases ts with
      | nil => simp [parseListElems_zero_count, serPayloadList]
      | cons t ts2 =>
        simp only [sizeTList] at hsz
        cases fuel with
        | zero => have := sizeT_pos t; omega
        | succ f =>
          simp only [isWFElems, Bool.and_eq_true, decide_eq_true_eq] at hwf
          obtain ⟨⟨⟨hid, hnm⟩, hwt⟩, hrest⟩ := hwf
          have hA := (ih f (Nat.lt_succ_self f)).1 t noneName (serPayloadList ts2 ++ rest)
            hwt (by omega)
          rw [hid] at hA
          rw [show withName noneName t = t by rw [← hnm]; exact withName_nameOf t] at hA
          have hB := (ih f (Nat.lt_succ_self f)).2.1 sub ts2 rest hrest (by omega)
          simp only [List.length_cons, serPayloadList, List.append_assoc]
          rw [parseListElems_succ_count]
          simp [hA, hB, Option.some_bind]
    · intro ts rest hwf hsz
      cases ts with
      | nil => simp [serNamedList, parseCompoundItems_end]
      | cons t ts2 =>
        simp only [sizeTList] at hsz
        cases fuel with
        | zero => have := sizeT_pos t; omega
        | succ f =>
          simp only [isWFList, Bool.and_eq_true] at hwf
          obtain ⟨hwt, hrest⟩ := hwf
          have hhdr := readNamedHeader_serNamed t (serNamedList ts2 ++ 0 :: rest)
            (nameWF_of_isWF t hwt)
          have hA := (ih f (Nat.lt_succ_self f)).1 t (nameOf t) (serNamedList ts2 ++ 0 :: rest)
            hwt (by omega)
          rw [withName_nameOf] at hA
          have hC := (ih f (Nat.lt_succ_self f)).2.2 ts2 rest hrest (by omega)
          have hshape : serNamedList (t :: ts2) ++ 0 :: rest
              = serNamed t ++ (serNamedList ts2 ++ 0 :: rest) := by
            simp [serNamedList_cons]
          rw [hshape, serNamed]
          simp only [List.cons_append]
          rw [parseCompoundItems_step f (tagId t) _ (tagId_ne_zero t)]
          simp only [serNamed, List.cons_append, List.append_assoc] at hhdr
          simp only [List.append_assoc]
          rw [hhdr]
          simp only [Option.some_bind]
          rw [hA]
          simp only [Option.some_bind]
          rw [hC]
          simp

/-- C1: for every well-formed tag tree t, parsing the serialization of t
(with fuel sizeT t, which always suffices) yields exactly t with no bytes
left over, for all twelve tag kinds including nested compounds, lists,
typed arrays, and strings. Structural identity of the parse result implies
equality under the codec's own notion of tag equality. -/
theorem nbt_tag_roundtrip (t : Tag) (h : isWF t = true) :
    parseNamed (sizeT t) (serNamed t) = some (t, []) := by
  have hA := (parse_roundtrip_aux (sizeT t)).1 t (nameOf t) [] h (le_refl _)
  have hhdr := readNamedHeader_serNamed t [] (nameWF_of_isWF t h)
  simp only [List.append_nil] at hhdr hA
  rw [parseNamed, hhdr]
  simp only [Option.some_bind]
  rw [hA, withName_nameOf]

/-- Witness for C1: the round-trip theorem applied at the concrete nested
tag witnessTag, its well-formedness hypothesis discharged by evaluation. -/
theorem nbt_tag_roundtrip_witness :
    isWF witnessTag = true
    ∧ parseNamed (sizeT witnessTag) (serNamed witnessTag) = some (witnessTag, []) :=
  ⟨rfl, nbt_tag_roundtrip witnessTag rfl⟩

/-- C10: tag equality for the fixed-width integer tag kinds compares only
the tag name and the numeric tag_value, not the tag kind: any two of
ByteTag, ShortTag, IntTag and LongTag with the same name and the same
value compare equal (BaseDataTag eq checks isinstance against the shared
base class only). -/
theorem data_tag_eq_ignores_kind (k1 k2 : Fin 4) (nm : List Nat) (v : Int) :
    tagEq (mkDataTag k1 nm v) (mkDataTag k2 nm v) = true := by
  fin_cases k1 <;> fin_cases k2 <;>
    simp [mkDataTag, tagEq, dataVal, nameOf, pyNumEq, Option.elim]

theorem foldl_congr_mem {α β : Type} (l : List α) (f g : β → α → β) (a : β)
    (h : ∀ b x, x ∈ l → f b x = g b x) : l.foldl f a = l.foldl g a := by
  induction l generalizing a with
  | nil => rfl
  | cons x xs ih =>
    simp only [List.foldl_cons]
    rw [h a x (List.mem_cons_self _ _)]
    exact ih _ (fun b y hy => h b y (List.mem_cons_of_mem _ hy))

theorem pack_loop (vals : List Nat) (w : Nat) :
    ∀ (s base a : Nat),
      (List.range s).foldl (fun lng state =>
        if base + (s - state - 1) < vals.length
        then (lng <<< w) + vals.getD (base + (s - state - 1)) 0 else lng) a
      = a * 2 ^ (w * min s (vals.length - base))
          + packValsLE w ((vals.drop base).take s) := by
  intro s
  induction s with
  | zero => intro base a; simp [packValsLE]
  | succ s ih =>
    intro base a
    rw [List.range_succ, List.foldl_append]
    have hfeq : ∀ (b state : Nat), state ∈ List.range s →
        (if base + (s + 1 - state - 1) < vals.length
         then (b <<< w) + vals.getD (base + (s + 1 - state - 1)) 0 else b)
        = (if (base + 1) + (s - state - 1) < vals.length
         then (b <<< w) + vals.getD ((base + 1) + (s - state - 1)) 0 else b) := by
      intro b state hst
      have hlt : state < s := List.mem_range.mp hst
      have harg : base + (s + 1 - state - 1) = (base + 1) + (s - state - 1) := by omega
      rw [harg]
    rw [foldl_congr_mem _ _ _ _ hfeq, ih (base + 1) a]
    simp only [List.foldl_cons, List.foldl_nil]
    have harg2 : base + (s + 1 - s - 1) = base := by omega
    rw [harg2]
    by_cases hb : base < vals.length
    · rw [if_pos hb]
      have hdrop : vals.drop base = vals.getD base 0 :: vals.drop (base + 1) := by
        rw [List.drop_eq_getElem_cons hb]
        congr 1
        exact (List.getD_eq_getElem vals 0 hb).symm
      rw [hdrop, List.take_succ_cons]
      have hpv : packValsLE w (vals.getD base 0 :: (vals.drop (base + 1)).take s)
          = vals.getD base 0 + (packValsLE w ((vals.drop (base + 1)).take s)) <<< w := rfl
      rw [hpv]
      have hmin : min (s + 1) (vals.length - base) = min s (vals.length - (base + 1)) + 1 := by
        omega
      rw [hmin]
      simp only [Nat.shiftLeft_eq]
      have hpow : 2 ^ (w * (min s (vals.length - (base + 1)) + 1))
          = 2 ^ (w * min s (vals.length - (base + 1))) * 2 ^ w := by
        rw [Nat.mul_succ, pow_add]
      rw [hpow]
      ring
    · rw [if_neg hb]
      have hd1 : vals.drop base = [] := List.drop_eq_nil_of_le (by omega)
      have hd2 : vals.drop (base + 1) = [] := List.drop_eq_nil_of_le (by omega)
      have hm1 : min (s + 1) (vals.length - base) = 0 := by omega
      have hm2 : min s (vals.length - (base + 1)) = 0 := by omega
      rw [hd1, hd2, hm1, hm2]
      simp [packValsLE]

theorem packLong_eq (vals : List Nat) (w spl li : Nat) :
    packLong vals w spl li = packValsLE w ((vals.drop (li * spl)).take spl) := by
  unfold packLong
  rw [pack_loop vals w spl (li * spl) 0]
  simp

theorem packValsLE_lt (w : Nat) :
    ∀ l : List Nat, (∀ v ∈ l, v < 2 ^ w) → packValsLE w l < 2 ^ (w * l.length) := by
  intro l
  induction l with
  | nil => intro _; simp [packValsLE]
  | cons v vs ih =>
    intro h
    have h1 : v < 2 ^ w := h v (List.mem_cons_self _ _)
    have h2 : packValsLE w vs < 2 ^ (w * vs.length) :=
      ih (fun x hx => h x (List.mem_cons_of_mem _ hx))
    have hpv : packValsLE w (v :: vs) = v + (packValsLE w vs) <<< w := rfl
    rw [hpv, Nat.shiftLeft_eq]
    have hpow : 2 ^ (w * (v :: vs).length) = 2 ^ (w * vs.length) * 2 ^ w := by
      simp only [List.length_cons]
      rw [Nat.mul_succ, pow_add]
    rw [hpow]
    calc v + packValsLE w vs * 2 ^ w
        < 2 ^ w + packValsLE w vs * 2 ^ w := by omega
    _ = (1 + packValsLE w vs) * 2 ^ w := by ring
    _ ≤ 2 ^ (w * vs.length) * 2 ^ w := Nat.mul_le_mul_right _ (by omega)

theorem packValsLE_get (w : Nat) :
    ∀ (l : List Nat) (k : Nat), k < l.length → (∀ v ∈ l, v < 2 ^ w) →
      packValsLE w l / 2 ^ (w * k) % 2 ^ w = l.getD k 0 := by
  intro l
  induction l with
  | nil => intro k hk _; simp at hk
  | cons v vs ih =>
    intro k hk h
    have h1 : v < 2 ^ w := h v (List.mem_cons_self _ _)
    have hpv : packValsLE w (v :: vs) = v + (packValsLE w vs) <<< w := rfl
    cases k with
    | zero =>
      rw [hpv, Nat.shiftLeft_eq]
      simp only [Nat.mul_zero, pow_zero, Nat.div_one, List.getD_cons_zero]
      rw [Nat.add_mul_mod_self_right, Nat.mod_eq_of_lt h1]
    | succ k =>
      rw [hpv, Nat.shiftLeft_eq]
      have hsplit : (v + packValsLE w vs * 2 ^ w) / 2 ^ (w * (k + 1))
          = packValsLE w vs / 2 ^ (w * k) := by
        have hpow : 2 ^ (w * (k + 1)) = 2 ^ w * 2 ^ (w * k) := by
          rw [Nat.mul_succ, pow_add]; ring
        rw [hpow, ← Nat.div_div_eq_div_mul]
        congr 1
        rw [Nat.add_mul_div_right _ _ (Nat.pos_pow_of_pos w (by norm_num)),
          Nat.div_eq_of_lt h1, Nat.zero_add]
      rw [hsplit, List.getD_cons_succ]
      exact ih k (by simpa using hk) (fun x hx => h x (List.mem_cons_of_mem _ hx))

theorem readBits_nat (L w s : Nat) :
    (L &&& ((2 ^ w - 1) <<< s)) >>> s = (L >>> s) % 2 ^ w := by
  apply Nat.eq_of_testBit_eq
  intro i
  rw [Nat.testBit_shiftRight, Nat.testBit_land, Nat.testBit_shiftLeft,
    Nat.testBit_two_pow_sub_one, Nat.testBit_mod_two_pow, Nat.testBit_shiftRight]
  have h1 : s ≤ s + i := Nat.le_add_right s i
  simp only [ge_iff_le, h1, decide_True, Bool.true_and, Nat.add_sub_cancel_left]
  exact Bool.and_comm _ _

theorem testBit_ones_sub (i : Nat) : ∀ n L, L < 2 ^ n → i < n →
    Nat.testBit (2 ^ n - 1 - L) i = ! Nat.testBit L i := by
  induction i with
  | zero =>
    intro n L hL hn
    obtain ⟨m, rfl⟩ : ∃ m, n = m + 1 := ⟨n - 1, by omega⟩
    have h2 : 2 ^ (m + 1) = 2 * 2 ^ m := by rw [pow_succ]; ring
    rw [Nat.testBit_zero, Nat.testBit_zero]
    have hq : (2 ^ (m + 1) - 1 - L) % 2 = 1 - L % 2 := by omega
    rcases Nat.mod_two_eq_zero_or_one L with h | h <;> simp [hq, h]
  | succ i ih =>
    intro n L hL hn
    obtain ⟨m, rfl⟩ : ∃ m, n = m + 1 := ⟨n - 1, by omega⟩
    have h2 : 2 ^ (m + 1) = 2 * 2 ^ m := by rw [pow_succ]; ring
    rw [Nat.testBit_succ, Nat.testBit_succ]
    have hdiv : (2 ^ (m + 1) - 1 - L) / 2 = 2 ^ m - 1 - L / 2 := by omega
    rw [hdiv]
    exact ih m (L / 2) (by omega) (by omega)

theorem ldiff_ones_complement (M L n : Nat) (hM : M < 2 ^ n) (hL : L < 2 ^ n) :
    Nat.ldiff M (2 ^ n - 1 - L) = M &&& L := by
  apply Nat.eq_of_testBit_eq
  intro i
  rw [Nat.testBit_ldiff, Nat.testBit_land]
  by_cases hi : i < n
  · rw [testBit_ones_sub i n L hL hi, Bool.not_not]
  · have hMi : M.testBit i = false :=
      Nat.testBit_lt_two_pow
        (lt_of_lt_of_le hM (Nat.pow_le_pow_right (by norm_num) (by omega)))
    simp [hMi]

theorem readBits_signedOfNat (L w s : Nat) (hL : L < 2 ^ 64) (hws : s + w ≤ 64) :
    readBits (signedOfNat 8 L) w s = (((L >>> s) % 2 ^ w : Nat) : Int) := by
  have hone : (1 : Nat) ≤ 2 ^ w := Nat.one_le_two_pow
  have hMlt : ((2 ^ w - 1) <<< s : Nat) < 2 ^ 64 := by
    rw [Nat.shiftLeft_eq]
    calc (2 ^ w - 1) * 2 ^ s
        < 2 ^ w * 2 ^ s := by
          have hp : 0 < (2 : Nat) ^ s := Nat.pos_pow_of_pos _ (by norm_num)
          have hlt : 2 ^ w - 1 < 2 ^ w := by
            have h1 : (1 : Nat) ≤ 2 ^ w := Nat.one_le_two_pow
            omega
          exact (Nat.mul_lt_mul_right hp).mpr hlt
    _ = 2 ^ (w + s) := by rw [pow_add]
    _ ≤ 2 ^ 64 := Nat.pow_le_pow_right (by norm_num) (by omega)
  unfold readBits signedOfNat
  have h63 : (8 : Nat) * 8 - 1 = 63 := by norm_num
  by_cases hc : L < 2 ^ (8 * 8 - 1)
  · rw [if_pos hc]
    have hland : Int.land (L : Int) (((2 ^ w - 1) <<< s : Nat) : Int)
        = ((L &&& ((2 ^ w - 1) <<< s) : Nat) : Int) := rfl
    rw [hland]
    have hshift : (((L &&& ((2 ^ w - 1) <<< s) : Nat) : Int)) >>> s
        = (((L &&& ((2 ^ w - 1) <<< s)) >>> s : Nat) : Int) := rfl
    rw [hshift, readBits_nat]
  · rw [if_neg hc]
    rw [h63] at hc
    push_neg at hc
    have hneg : (L : Int) - 2 ^ (8 * 8) = Int.negSucc (2 ^ 64 - 1 - L) := by
      rw [Int.negSucc_eq]
      have e1 : ((2 : Int) ^ (8 * 8)) = 18446744073709551616 := by norm_num
      have e2 : (2 : Nat) ^ 64 = 18446744073709551616 := by norm_num
      rw [e1, e2]
      omega
    rw [hneg]
    have hland : Int.land (Int.negSucc (2 ^ 64 - 1 - L)) (((2 ^ w - 1) <<< s : Nat) : Int)
        = ((Nat.ldiff ((2 ^ w - 1) <<< s) (2 ^ 64 - 1 - L) : Nat) : Int) := rfl
    rw [hland, ldiff_ones_complement _ _ 64 hMlt hL]
    have hshift : (((((2 ^ w - 1) <<< s) &&& L : Nat)) : Int) >>> s
        = (((((2 ^ w - 1) <<< s) &&& L) >>> s : Nat) : Int) := rfl
    rw [hshift, Nat.land_comm, readBits_nat]

/-- C2: for every sequence of at most 4096 values, every bit width w in
[1, 63], and every value below 2 ^ w, reading any position of the packed
signed-long array produced by the serialisation loop returns the original
value: element p lives in word p / (64 / w) at bit offset
(p mod (64 / w)) * w and never straddles a word boundary. -/
theorem palette_bitpack_roundtrip (vals : List Nat) (w : Nat) (hw1 : 1 ≤ w)
    (hw63 : w ≤ 63) (hN : vals.length ≤ 4096) (hv : ∀ v ∈ vals, v < 2 ^ w)
    (p : Nat) (hp : p < vals.length) :
    readWidthFromLoc (packIndices vals w) w p = some ((vals.getD p 0 : Int)) := by
  have hsplpos : 1 ≤ 64 / w := (Nat.one_le_div_iff (by omega)).mpr (by omega)
  have hsplw : (64 / w) * w ≤ 64 := Nat.div_mul_le_self 64 w
  have hk : p % (64 / w) < 64 / w := Nat.mod_lt _ (by omega)
  have hpk : (p / (64 / w)) * (64 / w) + p % (64 / w) = p := by
    rw [Nat.mul_comm]
    exact Nat.div_add_mod p (64 / w)
  have hli : p / (64 / w) < (vals.length + 64 / w - 1) / (64 / w) := by
    have h1 : p / (64 / w) ≤ (vals.length - 1) / (64 / w) :=
      Nat.div_le_div_right (by omega)
    have h2 : (vals.length - 1 + 64 / w) / (64 / w) = (vals.length - 1) / (64 / w) + 1 :=
      Nat.add_div_right _ (by omega)
    have h3 : vals.length + 64 / w - 1 = vals.length - 1 + 64 / w := by omega
    rw [h3, h2]
    omega
  have hget : (packIndices vals w).get? (p / (64 / w))
      = some (signedOfNat 8 (packLong vals w (64 / w) (p / (64 / w)))) := by
    unfold packIndices
    rw [List.get?_map, List.get?_range hli]
    rfl
  have hslice := packLong_eq vals w (64 / w) (p / (64 / w))
  have hmemslice : ∀ v ∈ (vals.drop (p / (64 / w) * (64 / w))).take (64 / w), v < 2 ^ w :=
    fun v hvmem => hv v (List.mem_of_mem_drop (List.mem_of_mem_take hvmem))
  have hslicelen : ((vals.drop (p / (64 / w) * (64 / w))).take (64 / w)).length
      = min (64 / w) (vals.length - p / (64 / w) * (64 / w)) := by
    simp [List.length_take, List.length_drop]
  have hLlt : packLong vals w (64 / w) (p / (64 / w)) < 2 ^ 64 := by
    rw [hslice]
    calc packValsLE w ((vals.drop (p / (64 / w) * (64 / w))).take (64 / w))
        < 2 ^ (w * ((vals.drop (p / (64 / w) * (64 / w))).take (64 / w)).length) :=
          packValsLE_lt w _ hmemslice
    _ ≤ 2 ^ 64 := by
          apply Nat.pow_le_pow_right (by norm_num)
          rw [hslicelen]
          have : min (64 / w) (vals.length - p / (64 / w) * (64 / w)) ≤ 64 / w :=
            Nat.min_le_left _ _
          calc w * min (64 / w) (vals.length - p / (64 / w) * (64 / w))
              ≤ w * (64 / w) := Nat.mul_le_mul_left _ this
          _ = (64 / w) * w := Nat.mul_comm _ _
          _ ≤ 64 := hsplw
  have hkw : p % (64 / w) * w + w ≤ 64 := by
    have h1 : (p % (64 / w) + 1) * w ≤ (64 / w) * w := Nat.mul_le_mul_right w (by omega)
    calc p % (64 / w) * w + w = (p % (64 / w) + 1) * w := by ring
    _ ≤ (64 / w) * w := h1
    _ ≤ 64 := hsplw
  unfold readWidthFromLoc
  rw [hget]
  rw [Option.map_some']
  rw [readBits_signedOfNat _ _ _ hLlt hkw]
  congr 1
  rw [Nat.shiftRight_eq_div_pow, hslice]
  have hcomm : 2 ^ (p % (64 / w) * w) = 2 ^ (w * (p % (64 / w))) := by
    rw [Nat.mul_comm]
  rw [hcomm]
  have hklen : p % (64 / w)
      < ((vals.drop (p / (64 / w) * (64 / w))).take (64 / w)).length := by
    rw [hslicelen]
    have hbase : p / (64 / w) * (64 / w) + p % (64 / w) < vals.length := by omega
    omega
  rw [packValsLE_get w _ _ hklen hmemslice]
  have hgd : ((vals.drop (p / (64 / w) * (64 / w))).take (64 / w)).getD (p % (64 / w)) 0
      = vals.getD p 0 := by
    unfold List.getD
    rw [List.get?_take hk, List.get?_drop, hpk]
  rw [hgd]

/-- Witness for C2: the bit-packing round-trip applied to twelve concrete
5-bit values at position 7, every hypothesis discharged by evaluation. -/
theorem palette_bitpack_roundtrip_witness :
    ((1 : Nat) ≤ 5 ∧ (5 : Nat) ≤ 63
      ∧ ([0, 1, 2, 3, 4, 5, 6, 7, 8, 9, 10, 11] : List Nat).length ≤ 4096
      ∧ (∀ v ∈ ([0, 1, 2, 3, 4, 5, 6, 7, 8, 9, 10, 11] : List Nat), v < 2 ^ 5)
      ∧ 7 < ([0, 1, 2, 3, 4, 5, 6, 7, 8, 9, 10, 11] : List Nat).length)
    ∧ readWidthFromLoc (packIndices [0, 1, 2, 3, 4, 5, 6, 7, 8, 9, 10, 11] 5) 5 7
        = some ((([0, 1, 2, 3, 4, 5, 6, 7, 8, 9, 10, 11] : List Nat).getD 7 0 : Int)) :=
  ⟨⟨by decide, by decide, by decide, by decide, by decide⟩,
   palette_bitpack_roundtrip [0, 1, 2, 3, 4, 5, 6, 7, 8, 9, 10, 11] 5
     (by decide) (by decide) (by decide) (by decide) 7 (by decide)⟩

/-- Proof helper: whenever the sector-aligned length of the payload
differs from the entry's stored sector length, the save iteration dies in
the AttributeError of 'self.debug' before the header update, the
ungenerated-chunk guard and the shift loop. -/
theorem saveShift_attr (locs : List (Int × Int)) (index datalen : Nat) (loc : Int × Int)
    (hloc : locs.get? index = some loc)
    (hdiff : ((blockDataLen datalen : Int)) - loc.2 ≠ 0) :
    saveShift locs index datalen = .error .attributeError := by
  simp only [saveShift, hloc]
  rw [if_pos hdiff]

/-- C3 (code_bug evidence): the claimed offset shift is dead code. Every
Region.save iteration raises AttributeError inside
chunk.package_and_compress(), because Chunk.pack references the
misspelled CompoundTag.class_id; and even given a compressed payload,
whenever the sector-aligned length changes — exactly the claim's
scenario — the line 'if data_len_diff != 0 and self.debug' raises
AttributeError (Region has no debug attribute) before the header update
and the shift loop. At the spec's worked example (entry at offset 8192
with sector length 4096, payload of 4500 bytes, new sector length 8192)
the iteration therefore dies instead of shifting the later entry. -/
theorem region_save_offset_shift_unreachable :
    (∀ (locs : List (Int × Int)) (index : Nat),
      regionSave locs [index] = .error .attributeError)
    ∧ saveShift [((8192 : Int), (4096 : Int)), (12288, 4096), (4096, 4096)] 0 4500
        = .error .attributeError
    ∧ (∀ (locs : List (Int × Int)) (index datalen : Nat) (loc : Int × Int),
        locs.get? index = some loc → ((blockDataLen datalen : Int)) ≠ loc.2 →
        saveShift locs index datalen = .error .attributeError) := by
  refine ⟨fun locs index => rfl, ?_, ?_⟩
  · exact saveShift_attr _ 0 4500 ((8192 : Int), (4096 : Int)) rfl (by decide)
  · intro locs index datalen loc hloc hd
    exact saveShift_attr locs index datalen loc hloc (sub_ne_zero.mpr hd)

/-- C4 (code_bug evidence): _serialize_blockstates writes the data long
array under block_states unconditionally, a single-entry palette
included, contradicting the claimed omission; _serialize_biomes on a
single-entry palette computes width ceil(log2 1) = 0 and dies in
ZeroDivisionError on 64 // width rather than omitting data; only the
decode side holds: a single-entry palette decodes to 4096 zero indices,
which map every block to the palette's one state. -/
theorem single_palette_serialization :
    (∀ (statesPalette blocks : List BState) (stateMapping : BState → Nat),
      hasChildNamed (serializeBlockstates statesPalette blocks stateMapping) dataKey = true)
    ∧ (∀ (b : BiomeM) (biomeRegions : List BiomeM) (biomeMapping : BiomeM → Nat),
      serializeBiomes [b] biomeRegions biomeMapping = none)
    ∧ (∀ flatstates : List Int,
      decodeStateIndexes 1 flatstates = some (List.replicate 4096 ((0 : Int))))
    ∧ (∀ (statesPalette : List BState) (d : BState),
      (List.replicate 4096 ((0 : Int))).map (fun i => statesPalette.getD i.toNat d)
        = List.replicate 4096 (statesPalette.getD 0 d)) := by
  refine ⟨fun _ _ _ => rfl, ?_, fun _ => rfl, ?_⟩
  · intro b biomeRegions biomeMapping
    have h : widthCeilLog2 (List.length ([b] : List BiomeM)) = 0 := Nat.clog_one_right 2
    unfold serializeBiomes
    rw [if_pos h]
  · intro statesPalette d
    rw [List.map_replicate, Int.toNat_zero]

/-- C5 (code_bug evidence): from_nbt's single-entry biome path builds
[0] * 16 ** 3, i.e. 4096 biome indices rather than the claimed 64; and
with a palette of more than one entry the code passes 64 as the position
argument of _read_width_from_loc, getting back one integer whose
enumeration raises TypeError, so no list of indices is produced at
all. -/
theorem biome_region_decode_counts :
    decodeBiomeIndexes 1 [] = some (List.replicate 4096 0)
    ∧ (List.replicate 4096 (0 : Nat)).length ≠ 64
    ∧ ∀ flatbiomes : List Int, decodeBiomeIndexes 2 flatbiomes = none := by
  refine ⟨rfl, ?_, ?_⟩
  · rw [List.length_replicate]
    norm_num
  · intro flatbiomes
    unfold decodeBiomeIndexes
    rw [if_neg (by norm_num)]
    rcases h : readWidthFromLoc flatbiomes (Nat.size (2 - 1)) 64 with _ | v <;> simp [h]

/-- C6 (code_bug evidence): no class or exception named
UngeneratedChunkWrite exists in the code, and the print + sys.exit(0)
guard of lines 666-668 is unreachable for a (0, 0) header entry: the
iteration raises AttributeError first, inside chunk.package_and_compress
(Chunk.pack's CompoundTag.class_id), and even given a payload the zero
stored sector length makes data_len_diff = block_data_len nonzero, so
'self.debug' raises AttributeError before the guard for every payload
size. The caller gets an unrelated uncaught AttributeError rather than an
UngeneratedChunkWrite. The half of the claim that holds: the file is
rewritten only after the loop, so no file write has occurred at the
failure. -/
theorem ungenerated_chunk_write_exit :
    regionSave [((0 : Int), (0 : Int))] [0] = .error .attributeError
    ∧ (∀ datalen : Nat,
        saveShift [((0 : Int), (0 : Int))] 0 datalen = .error .attributeError)
    ∧ (∀ (file : List Nat) (render : List (Int × Int) → List Nat),
        regionSaveResult [((0 : Int), (0 : Int))] [0] file render = file) := by
  refine ⟨rfl, ?_, fun file render => rfl⟩
  intro datalen
  have hbq : 1 ≤ (datalen + 5 + 4095) / 4096 :=
    (Nat.one_le_div_iff (by norm_num)).mpr (by omega)
  have hbpos : 0 < blockDataLen datalen := Nat.mul_pos (by omega) (by norm_num)
  refine saveShift_attr _ 0 datalen ((0 : Int), (0 : Int)) rfl ?_
  have h : (0 : Int) < (blockDataLen datalen : Int) := by exact_mod_cast hbpos
  show ((blockDataLen datalen : Int)) - 0 ≠ 0
  omega

/-- C7: set_state on a block marks the block, its section, its chunk and
the region dirty, and changes no other block's, section's or chunk's
dirty flag. -/
theorem dirty_propagation (r : RegionM) (ci : Nat) (si : Int) (bi : Nat) (st : BState)
    (h : (blockAt r ci si bi).isSome = true) :
    DirtyPropagationSpec r ci si bi st := by
  rw [blockAt, Option.isSome_iff_exists] at h
  obtain ⟨b, hb⟩ := h
  rw [Option.bind_eq_some] at hb
  obtain ⟨ch, hch, hb⟩ := hb
  rw [Option.bind_eq_some] at hb
  obtain ⟨sec, hsec, hblk⟩ := hb
  unfold DirtyPropagationSpec
  refine ⟨?_, ?_, ?_, rfl, ?_, ?_, ?_⟩
  · simp [blockDirtyAt, blockAt, setBlockState, hch, hsec, hblk]
  · simp [sectionDirtyAt, setBlockState, hch, hsec]
  · simp [chunkDirtyAt, setBlockState, hch]
  · intro cj sj bj hne
    by_cases hc : cj = ci
    · subst hc
      by_cases hs : sj = si
      · subst hs
        have hbj : bj ≠ bi := by tauto
        simp [blockDirtyAt, blockAt, setBlockState, hch, hsec, hbj]
      · simp [blockDirtyAt, blockAt, setBlockState, hch, hs]
    · simp [blockDirtyAt, blockAt, setBlockState, hc]
  · intro cj sj hne
    by_cases hc : cj = ci
    · subst hc
      have hs : sj ≠ si := by tauto
      simp [sectionDirtyAt, setBlockState, hch, hs]
    · simp [sectionDirtyAt, setBlockState, hc]
  · intro cj hne
    simp [chunkDirtyAt, setBlockState, hne]

/-- Witness for C7: the propagation theorem applied to the concrete
one-block region, the residency hypothesis discharged by evaluation. -/
theorem dirty_propagation_witness :
    (blockAt witnessRegion 0 0 0).isSome = true
    ∧ DirtyPropagationSpec witnessRegion 0 0 0 { name := [98], props := [] } :=
  ⟨rfl, dirty_propagation witnessRegion 0 0 0 { name := [98], props := [] } rfl⟩

/-- C8 (code_bug evidence): Chunk.get_section populates a fresh section
with one blank block per index in range(REGION_WIDTH ** 3), i.e. 32768
blocks rather than the claimed 4096; and its biome comprehension, besides
ranging over (REGION_WIDTH // BIOME_REGION_WIDTH) ** 3 = 512 rather than
64, calls BiomeRegion(dirty=True) without the required biome argument and
dies in TypeError, so no biome regions are produced at all. -/
theorem fresh_section_population :
    freshSectionBlocks.length = 32768
    ∧ freshSectionBlocks.length ≠ 4096
    ∧ (regionWidth / biomeRegionWidth) ^ 3 = 512
    ∧ freshSectionBiomeRegions = none := by
  have h : freshSectionBlocks.length = 32768 := by
    unfold freshSectionBlocks
    rw [List.length_map, List.length_range]
    norm_num [regionWidth]
  refine ⟨h, ?_, by norm_num [regionWidth, biomeRegionWidth], rfl⟩
  rw [h]
  norm_num

/-- C9 (code_bug evidence): _divide_nibbles masks the high nibble with
240 but never shifts it down, so byte 18 (nibbles 1 and 2) yields the
pair [16, 2] rather than [1, 2], and the signed byte -1 yields [240, 15]:
decoded light values are not confined to [0, 15]. -/
theorem divide_nibbles_unshifted :
    divideNibbles [(18 : Int)] = [16, 2]
    ∧ divideNibbles [(-1 : Int)] = [240, 15]
    ∧ (∃ s : Int, ∃ v, v ∈ divideNibbles [s] ∧ ¬ (0 ≤ v ∧ v ≤ 15)) := by
  have hld : ∀ n : Nat, Nat.ldiff n 0 = n := fun n =>
    Nat.eq_of_testBit_eq (fun k => by simp [Nat.testBit_ldiff, Nat.zero_testBit])
  have e1 : Int.land (-1) 240 = (240 : Int) := by
    show Int.ofNat (Nat.ldiff 240 0) = (240 : Int)
    rw [hld]
    rfl
  have e2 : Int.land (-1) 15 = (15 : Int) := by
    show Int.ofNat (Nat.ldiff 15 0) = (15 : Int)
    rw [hld]
    rfl
  have h2 : divideNibbles [(-1 : Int)] = [240, 15] := by
    show [Int.land (-1) 240, Int.land (-1) 15] = [240, 15]
    rw [e1, e2]
  refine ⟨by decide, h2, ⟨-1, 240, ?_, by decide⟩⟩
  rw [h2]
  simp

end PyAnvil
